import Mathlib

/-! Audio playback driver (src/board/audio/audio.c).

Shallow embedding of the I2S playback engine: the driver state machine, the
interrupt-context fill callback `i2s_event_handler`, and the foreground
lifecycle calls `audio_enable`, `audio_disable`, `audio_play`, `audio_stop`.

Conventions of the embedding

* `uint16_t` objects are natural numbers; every increment of the cursor is
  reduced modulo `2^16` exactly where the C code increments it.
* `m_buffer_tx` is viewed through the `uint16_t *` cast used by the handler:
  it is a map from half-word position to half-word value.  Word `w` of the
  buffer consists of half-words `2*w` and `2*w+1`.
* `m_audio_data` is the memory seen through the caller's pointer: a map from
  byte offset to byte.  The caller's source occupies offsets `0 .. length-1`;
  larger offsets are whatever memory follows the source buffer.
* `p_data_to_send` is the word offset of the block inside `m_buffer_tx`.
-/

namespace Audio

/-- Driver state (`audio_state_t`). -/
inductive audio_state_t where
  | AUDIO_STATE_IDLE
  | AUDIO_STATE_PLAYING
  | AUDIO_STATE_FINISHING
  | AUDIO_STATE_FINISHED
  deriving DecidableEq, Repr

open audio_state_t

/-- Size of the transfer buffer in 32-bit words (`#define I2S_BUFFER_SIZE 1000`). -/
def I2S_BUFFER_SIZE : Nat := 1000

/-- The static variables of the driver together with the two observable
collaborator signals (amplifier pin level, transport streaming or halted).

`sampled` is a ghost history: one entry `(k, v)` for every execution of line 72
or line 73, where `k` is the offset read from `m_audio_data` and `v` the
half-word stored.  No operation reads it.

`amp_at_start` is a ghost history of the transport: one entry for every call of
`nrf_drv_i2s_start`, holding the level the amplifier pin had at the moment of
the call.  No operation reads it. -/
structure Engine where
  m_buffer_tx : Nat → Nat
  m_audio_data : Nat → Fin 256
  m_audio_length : Nat
  m_audio_index : Nat
  m_audio_state : audio_state_t
  audio_ctrl_pin : Bool
  i2s_tx : Option Nat
  sampled : List (Nat × Nat)
  amp_at_start : List Bool

/-- Assignment `((uint16_t *)buf)[pos] = val` with the value converted to `uint16_t`. -/
def store16 (buf : Nat → Nat) (pos val : Nat) : Nat → Nat :=
  fun j => if j = pos then val % 65536 else buf j

/-- Effect of `memset(p_data_to_send, 0, number_of_words * sizeof(uint32_t))` on the
half-word view: the half-words of words `p .. p + n - 1` become zero. -/
def memset0 (buf : Nat → Nat) (p n : Nat) : Nat → Nat :=
  fun j => if 2 * p ≤ j ∧ j < 2 * p + 2 * n then 0 else buf j

/-- One statement of the form
`((uint16_t *)p_data_to_send)[pos] = (uint16_t)m_audio_data[m_audio_index++] << 8;`
(lines 72 and 73). -/
def emit_sample (pos : Nat) (s : Engine) : Engine :=
  { s with
    m_buffer_tx := store16 s.m_buffer_tx pos ((s.m_audio_data s.m_audio_index).val * 256)
    m_audio_index := (s.m_audio_index + 1) % 65536
    sampled := s.sampled ++ [(s.m_audio_index, (s.m_audio_data s.m_audio_index).val * 256 % 65536)] }

/-- Body of the `for` loop (lines 70-79) for slot `i` of the block at word offset `p`. -/
def fill_slot (p i : Nat) (s : Engine) : Engine :=
  if s.m_audio_index < s.m_audio_length then
    emit_sample (2 * p + (2 * i + 1)) (emit_sample (2 * p + 2 * i) s)
  else
    { s with m_buffer_tx := store16 (store16 s.m_buffer_tx (2 * p + 2 * i) 0) (2 * p + (2 * i + 1)) 0 }

/-- The loop `for (i = ...; i < number_of_words; ++i)` with `n` iterations left,
the next one being iteration `i`. -/
def fill_loop (p : Nat) : Nat → Nat → Engine → Engine
  | 0, _, s => s
  | n + 1, i, s => fill_loop p n (i + 1) (fill_slot p i s)

/-- The fill callback `i2s_event_handler(p_data_received, p_data_to_send, number_of_words)`.
`p_data_received` is not used by the code. -/
def i2s_event_handler (s : Engine) (p_data_to_send number_of_words : Nat) : Engine :=
  match s.m_audio_state with
  | AUDIO_STATE_IDLE => s
  | AUDIO_STATE_PLAYING =>
    if s.m_audio_index < s.m_audio_length then
      fill_loop p_data_to_send number_of_words 0 { s with m_audio_state := AUDIO_STATE_PLAYING }
    else
      { s with
        m_buffer_tx := memset0 s.m_buffer_tx p_data_to_send number_of_words
        m_audio_state := AUDIO_STATE_FINISHING }
  | AUDIO_STATE_FINISHING =>
    { s with
      m_buffer_tx := memset0 s.m_buffer_tx p_data_to_send number_of_words
      m_audio_state := AUDIO_STATE_FINISHED }
  | AUDIO_STATE_FINISHED => s

/-- Modelled from the spec: the amplifier-enable collaborator `nrf_drv_gpiote_out_set`
on the fixed line `AUDIO_CTRL_PIN` drives the line high. -/
def nrf_drv_gpiote_out_set (s : Engine) : Engine :=
  { s with audio_ctrl_pin := true }

/-- Modelled from the spec: the amplifier-enable collaborator `nrf_drv_gpiote_out_clear`
on the fixed line `AUDIO_CTRL_PIN` drives the line low. -/
def nrf_drv_gpiote_out_clear (s : Engine) : Engine :=
  { s with audio_ctrl_pin := false }

/-- Modelled from the spec: the transport collaborator `nrf_drv_i2s_start(NULL, tx, size, 0)`
begins continuous transfer from the `size`-word buffer; the call is assumed to succeed.
The call is entered in the ghost history `amp_at_start` with the pin level it finds. -/
def nrf_drv_i2s_start (s : Engine) (buffer_size : Nat) : Engine :=
  { s with
    i2s_tx := some buffer_size
    amp_at_start := s.amp_at_start ++ [s.audio_ctrl_pin] }

/-- Modelled from the spec: the transport collaborator `nrf_drv_i2s_stop` halts the transfer. -/
def nrf_drv_i2s_stop (s : Engine) : Engine :=
  { s with i2s_tx := none }

/-- The call `audio_enable()`. -/
def audio_enable (s : Engine) : Engine :=
  nrf_drv_gpiote_out_set s

/-- The call `audio_disable()`. -/
def audio_disable (s : Engine) : Engine :=
  nrf_drv_gpiote_out_clear s

/-- The call `audio_stop()`. -/
def audio_stop (s : Engine) : Engine :=
  { audio_disable (nrf_drv_i2s_stop s) with m_audio_state := AUDIO_STATE_IDLE }

/-- Lines 138-142 of `audio_play`: the four assignments to the static variables. -/
def audio_play_store (s : Engine) (p_audio_data : Nat → Fin 256) (audio_length : Nat) : Engine :=
  { s with
    m_audio_data := p_audio_data
    m_audio_length := audio_length
    m_audio_index := 0
    m_audio_state := AUDIO_STATE_PLAYING }

/-- Lines 138-146 of `audio_play`: everything between the length test and the wait loop. -/
def audio_play_arm (s : Engine) (p_audio_data : Nat → Fin 256) (audio_length : Nat) : Engine :=
  nrf_drv_i2s_start (audio_enable (audio_play_store s p_audio_data audio_length)) I2S_BUFFER_SIZE

/-- State after the transport has invoked the handler `k` times; request number `j`
(counting from zero) is `t j = (p_data_to_send, number_of_words)`. -/
def i2s_run (t : Nat → Nat × Nat) (s : Engine) : Nat → Engine
  | 0 => s
  | k + 1 => i2s_event_handler (i2s_run t s k) (t k).1 (t k).2

/-- The wait loop `while (m_audio_state != AUDIO_STATE_FINISHED);` of `audio_play`
while the transport keeps interrupting: each time the test fails, the next
request of `t` is served before the state is tested again.  `none` means the
loop has not exited within the given number of tests. -/
def audio_wait : Nat → (Nat → Nat × Nat) → Engine → Option Engine
  | 0, _, _ => none
  | fuel + 1, t, s =>
    if s.m_audio_state = AUDIO_STATE_FINISHED then some s
    else audio_wait fuel (fun j => t (j + 1)) (i2s_event_handler s (t 0).1 (t 0).2)

/-- The call `audio_play(p_audio_data, audio_length)` with the transport serving the
requests `t`; `none` when the wait loop does not exit within `fuel` tests. -/
def audio_play (fuel : Nat) (t : Nat → Nat × Nat) (s : Engine)
    (p_audio_data : Nat → Fin 256) (audio_length : Nat) : Option Engine :=
  if audio_length = 0 then some s
  else
    match audio_wait fuel t (audio_play_arm s p_audio_data audio_length) with
    | none => none
    | some s1 => some (audio_stop s1)

/-- Position of a driver state in the order Idle, Playing, Finishing, Finished. -/
def audio_state_t.rank : audio_state_t → Nat
  | AUDIO_STATE_IDLE => 0
  | AUDIO_STATE_PLAYING => 1
  | AUDIO_STATE_FINISHING => 2
  | AUDIO_STATE_FINISHED => 3

/-- Memory seen through a pointer to the given bytes, with `rest` in every byte after them. -/
def bytes_then (src : List (Fin 256)) (rest : Fin 256) : Nat → Fin 256 :=
  fun k => src.getD k rest

/-- An idle engine whose transfer buffer holds `stale` in every half-word, as left
behind by earlier use. -/
def engine_idle (stale : Nat) : Engine :=
  { m_buffer_tx := fun _ => stale
    m_audio_data := fun _ => 0
    m_audio_length := 0
    m_audio_index := 0
    m_audio_state := AUDIO_STATE_IDLE
    audio_ctrl_pin := false
    i2s_tx := none
    sampled := []
    amp_at_start := [] }

/-- Requests of a fixed capacity `B` at the block offsets `off`. -/
def fixed_capacity (off : Nat → Nat) (B : Nat) : Nat → Nat × Nat :=
  fun j => (off j, B)

/-- Requests of capacity `B` that alternate between the two halves of a `2 * B`-word buffer. -/
def alternating (B : Nat) : Nat → Nat × Nat :=
  fixed_capacity (fun j => (j % 2) * B) B

/-- The half-words of the `n`-word block at word offset `p`. -/
def block (s : Engine) (p n : Nat) : List Nat :=
  (List.range (2 * n)).map (fun j => s.m_buffer_tx (2 * p + j))

/-- Samples taken from offsets `c .. c + m - 1` of the source view `d`. -/
def samples_from (d : Nat → Fin 256) (c m : Nat) : List (Nat × Nat) :=
  (List.range m).map (fun j => (c + j, (d (c + j)).val * 256))

/-- Number of slots an invocation fills from the source when it is entered with cursor
`c`, length `L` and capacity `n`. -/
def slots_from_source (L c n : Nat) : Nat :=
  min n ((L - c + 1) / 2)

/-- Total capacity, in words, of the first `k` requests of `t`. -/
def words_requested (t : Nat → Nat × Nat) : Nat → Nat
  | 0 => 0
  | k + 1 => words_requested t k + (t k).2

/-- Number of invocations of capacity `B` entered with the cursor below the length `L`:
the least `K` with `L <= 2 * B * K`. -/
def playing_blocks (L B : Nat) : Nat :=
  ((L + 1) / 2 + B - 1) / B

/-- The source of the end-to-end scenario: bytes `10 20 30 40`, followed by zero bytes. -/
def scenario_source : Nat → Fin 256 :=
  bytes_then [0x10, 0x20, 0x30, 0x40] 0

/-- The scenario session as armed by `audio_play(scenario_source, 4)` on an idle engine
whose transfer buffer holds stale half-words `5A5A`. -/
def scenario_armed : Engine :=
  audio_play_arm (engine_idle 0x5A5A) scenario_source 4

/-- A source of three bytes, `10 20 30`. -/
def odd_source : List (Fin 256) :=
  [0x10, 0x20, 0x30]

/-- The session armed by `audio_play(p, 3)` where `p` points to `odd_source` and every
byte after the source is `FF`. -/
def odd_armed : Engine :=
  audio_play_arm (engine_idle 0x5A5A) (bytes_then odd_source 0xFF) odd_source.length

/-- The session armed by `audio_play(p, 65535)`, the largest `uint16_t` length, on a
view that starts with the bytes `10 20 30 40`. -/
def longest_armed : Engine :=
  audio_play_arm (engine_idle 0x5A5A) scenario_source 65535

/-! ## Frame lemmas for the fill loop -/

theorem fill_slot_state (p i : Nat) (s : Engine) :
    (fill_slot p i s).m_audio_state = s.m_audio_state := by
  unfold fill_slot; split <;> rfl

theorem fill_slot_length (p i : Nat) (s : Engine) :
    (fill_slot p i s).m_audio_length = s.m_audio_length := by
  unfold fill_slot; split <;> rfl

theorem fill_slot_data (p i : Nat) (s : Engine) :
    (fill_slot p i s).m_audio_data = s.m_audio_data := by
  unfold fill_slot; split <;> rfl

theorem fill_slot_pin (p i : Nat) (s : Engine) :
    (fill_slot p i s).audio_ctrl_pin = s.audio_ctrl_pin := by
  unfold fill_slot; split <;> rfl

theorem fill_slot_i2s (p i : Nat) (s : Engine) :
    (fill_slot p i s).i2s_tx = s.i2s_tx := by
  unfold fill_slot; split <;> rfl

theorem fill_loop_state (p : Nat) : ∀ (n i : Nat) (s : Engine),
    (fill_loop p n i s).m_audio_state = s.m_audio_state
  | 0, _, _ => rfl
  | n + 1, i, s => by
    show (fill_loop p n (i + 1) (fill_slot p i s)).m_audio_state = _
    rw [fill_loop_state p n, fill_slot_state]

theorem fill_loop_length (p : Nat) : ∀ (n i : Nat) (s : Engine),
    (fill_loop p n i s).m_audio_length = s.m_audio_length
  | 0, _, _ => rfl
  | n + 1, i, s => by
    show (fill_loop p n (i + 1) (fill_slot p i s)).m_audio_length = _
    rw [fill_loop_length p n, fill_slot_length]

theorem fill_loop_data (p : Nat) : ∀ (n i : Nat) (s : Engine),
    (fill_loop p n i s).m_audio_data = s.m_audio_data
  | 0, _, _ => rfl
  | n + 1, i, s => by
    show (fill_loop p n (i + 1) (fill_slot p i s)).m_audio_data = _
    rw [fill_loop_data p n, fill_slot_data]

theorem fill_loop_pin (p : Nat) : ∀ (n i : Nat) (s : Engine),
    (fill_loop p n i s).audio_ctrl_pin = s.audio_ctrl_pin
  | 0, _, _ => rfl
  | n + 1, i, s => by
    show (fill_loop p n (i + 1) (fill_slot p i s)).audio_ctrl_pin = _
    rw [fill_loop_pin p n, fill_slot_pin]

theorem fill_loop_i2s (p : Nat) : ∀ (n i : Nat) (s : Engine),
    (fill_loop p n i s).i2s_tx = s.i2s_tx
  | 0, _, _ => rfl
  | n + 1, i, s => by
    show (fill_loop p n (i + 1) (fill_slot p i s)).i2s_tx = _
    rw [fill_loop_i2s p n, fill_slot_i2s]

/-! ## What the fill loop writes -/

theorem byte_shift (b : Fin 256) : b.val * 256 % 65536 = b.val * 256 := by
  have := b.isLt; omega

theorem fill_loop_split (p : Nat) : ∀ (a b i : Nat) (s : Engine),
    fill_loop p (a + b) i s = fill_loop p b (i + a) (fill_loop p a i s)
  | 0, b, i, s => by simp [fill_loop]
  | a + 1, b, i, s => by
    have e : a + 1 + b = (a + b) + 1 := by omega
    rw [e]
    show fill_loop p (a + b) (i + 1) (fill_slot p i s)
      = fill_loop p b (i + (a + 1)) (fill_loop p a (i + 1) (fill_slot p i s))
    rw [fill_loop_split p a b (i + 1)]
    congr 1; omega

theorem fill_loop_succ_last (p n i : Nat) (s : Engine) :
    fill_loop p (n + 1) i s = fill_slot p (i + n) (fill_loop p n i s) := by
  rw [fill_loop_split p n 1]; rfl

theorem fill_slot_buffer_outside (p i : Nat) (s : Engine) (j : Nat)
    (h0 : j ≠ 2 * p + 2 * i) (h1 : j ≠ 2 * p + (2 * i + 1)) :
    (fill_slot p i s).m_buffer_tx j = s.m_buffer_tx j := by
  unfold fill_slot
  split <;> simp [emit_sample, store16, h0, h1]

theorem fill_loop_buffer_outside (p : Nat) : ∀ (n i : Nat) (s : Engine) (j : Nat),
    (j < 2 * p + 2 * i ∨ 2 * p + 2 * i + 2 * n ≤ j) →
    (fill_loop p n i s).m_buffer_tx j = s.m_buffer_tx j
  | 0, _, _, _, _ => rfl
  | n + 1, i, s, j, h => by
    show (fill_loop p n (i + 1) (fill_slot p i s)).m_buffer_tx j = _
    rw [fill_loop_buffer_outside p n (i + 1) _ j (by omega),
      fill_slot_buffer_outside p i s j (by omega) (by omega)]

/-- The loop body when the cursor is below the length and below 65535. -/
theorem fill_slot_sample (p i : Nat) (s : Engine)
    (hc : s.m_audio_index < s.m_audio_length) (hw : s.m_audio_index < 65535) :
    (fill_slot p i s).m_audio_index = (s.m_audio_index + 2) % 65536
    ∧ (fill_slot p i s).sampled = s.sampled ++
        [(s.m_audio_index, (s.m_audio_data s.m_audio_index).val * 256),
         (s.m_audio_index + 1, (s.m_audio_data (s.m_audio_index + 1)).val * 256)]
    ∧ (fill_slot p i s).m_buffer_tx (2 * p + 2 * i) = (s.m_audio_data s.m_audio_index).val * 256
    ∧ (fill_slot p i s).m_buffer_tx (2 * p + (2 * i + 1))
        = (s.m_audio_data (s.m_audio_index + 1)).val * 256 := by
  have e1 : (s.m_audio_index + 1) % 65536 = s.m_audio_index + 1 := Nat.mod_eq_of_lt (by omega)
  unfold fill_slot
  rw [if_pos hc]
  refine ⟨?_, ?_, ?_, ?_⟩
  · simp only [emit_sample, e1]
  · simp [emit_sample, e1, byte_shift]
  · simp [emit_sample, store16, byte_shift]
  · simp [emit_sample, store16, e1, byte_shift]

/-- The loop body when the cursor has reached the length. -/
theorem fill_slot_pad (p i : Nat) (s : Engine) (hc : s.m_audio_length ≤ s.m_audio_index) :
    (fill_slot p i s).m_audio_index = s.m_audio_index
    ∧ (fill_slot p i s).sampled = s.sampled
    ∧ (fill_slot p i s).m_buffer_tx (2 * p + 2 * i) = 0
    ∧ (fill_slot p i s).m_buffer_tx (2 * p + (2 * i + 1)) = 0 := by
  unfold fill_slot
  rw [if_neg (Nat.not_lt.mpr hc)]
  refine ⟨rfl, rfl, ?_, by simp [store16]⟩
  have : 2 * p + 2 * i ≠ 2 * p + (2 * i + 1) := by omega
  simp [store16, this]

theorem samples_from_succ (d : Nat → Fin 256) (c m : Nat) :
    samples_from d c (m + 1) = samples_from d c m ++ [(c + m, (d (c + m)).val * 256)] := by
  simp [samples_from, List.range_succ]

/-- Iterations of the loop that all find the cursor below the length, without the
cursor passing 65535. -/
theorem fill_loop_sampled (p i : Nat) (s : Engine) : ∀ n : Nat,
    s.m_audio_index + 2 * n ≤ s.m_audio_length + 1 →
    s.m_audio_index + 2 * n ≤ 65535 →
    (fill_loop p n i s).m_audio_index = s.m_audio_index + 2 * n
    ∧ (fill_loop p n i s).sampled
        = s.sampled ++ samples_from s.m_audio_data s.m_audio_index (2 * n)
    ∧ ∀ j, j < 2 * n →
        (fill_loop p n i s).m_buffer_tx (2 * p + 2 * i + j)
          = (s.m_audio_data (s.m_audio_index + j)).val * 256
  | 0, _, _ => by simp [fill_loop, samples_from]
  | n + 1, h1, h2 => by
    obtain ⟨hi, hs, hb⟩ := fill_loop_sampled p i s n (by omega) (by omega)
    have hlen := fill_loop_length p n i s
    have hdat := fill_loop_data p n i s
    obtain ⟨ki, ks, kb0, kb1⟩ := fill_slot_sample p (i + n) (fill_loop p n i s)
      (by rw [hi, hlen]; omega) (by rw [hi]; omega)
    rw [fill_loop_succ_last]
    refine ⟨?_, ?_, ?_⟩
    · rw [ki, hi]; exact Nat.mod_eq_of_lt (by omega) |>.trans (by omega)
    · rw [ks, hs, hi, hdat]
      have e : 2 * (n + 1) = 2 * n + 1 + 1 := by omega
      rw [e, samples_from_succ, samples_from_succ]
      simp [Nat.add_assoc]
    · intro j hj
      by_cases hj0 : j = 2 * n
      · subst hj0
        have e : 2 * p + 2 * i + 2 * n = 2 * p + 2 * (i + n) := by omega
        rw [e, kb0, hi, hdat]
      · by_cases hj1 : j = 2 * n + 1
        · subst hj1
          have e : 2 * p + 2 * i + (2 * n + 1) = 2 * p + (2 * (i + n) + 1) := by omega
          rw [e, kb1, hi, hdat, Nat.add_assoc]
        · rw [fill_slot_buffer_outside p (i + n) _ _ (by omega) (by omega)]
          exact hb j (by omega)

/-- Iterations of the loop entered with the cursor at or beyond the length. -/
theorem fill_loop_pad (p i : Nat) (s : Engine) (hc : s.m_audio_length ≤ s.m_audio_index) :
    ∀ n : Nat,
    (fill_loop p n i s).m_audio_index = s.m_audio_index
    ∧ (fill_loop p n i s).sampled = s.sampled
    ∧ ∀ j, j < 2 * n → (fill_loop p n i s).m_buffer_tx (2 * p + 2 * i + j) = 0
  | 0 => by simp [fill_loop]
  | n + 1 => by
    obtain ⟨hi, hs, hb⟩ := fill_loop_pad p i s hc n
    have hlen := fill_loop_length p n i s
    obtain ⟨ki, ks, kb0, kb1⟩ := fill_slot_pad p (i + n) (fill_loop p n i s)
      (by rw [hi, hlen]; exact hc)
    rw [fill_loop_succ_last]
    refine ⟨by rw [ki, hi], by rw [ks, hs], ?_⟩
    intro j hj
    by_cases hj0 : j = 2 * n
    · subst hj0
      have e : 2 * p + 2 * i + 2 * n = 2 * p + 2 * (i + n) := by omega
      rw [e, kb0]
    · by_cases hj1 : j = 2 * n + 1
      · subst hj1
        have e : 2 * p + 2 * i + (2 * n + 1) = 2 * p + (2 * (i + n) + 1) := by omega
        rw [e, kb1]
      · rw [fill_slot_buffer_outside p (i + n) _ _ (by omega) (by omega)]
        exact hb j (by omega)

/-- Every entry the loop body adds to the history pairs an offset with the byte at that
offset shifted left by eight bits. -/
theorem fill_slot_history (p i : Nat) (s : Engine) :
    ∃ extra : List (Nat × Nat), (fill_slot p i s).sampled = s.sampled ++ extra
      ∧ ∀ e ∈ extra, e.2 = (s.m_audio_data e.1).val * 256 := by
  unfold fill_slot
  split
  · refine ⟨[(s.m_audio_index, (s.m_audio_data s.m_audio_index).val * 256),
      ((s.m_audio_index + 1) % 65536,
        (s.m_audio_data ((s.m_audio_index + 1) % 65536)).val * 256)], ?_, ?_⟩
    · simp [emit_sample, byte_shift]
    · intro e he
      simp only [List.mem_cons, List.mem_singleton, List.not_mem_nil, or_false] at he
      rcases he with rfl | rfl <;> rfl
  · exact ⟨[], by simp, by simp⟩

theorem fill_loop_history (p : Nat) : ∀ (n i : Nat) (s : Engine),
    ∃ extra : List (Nat × Nat), (fill_loop p n i s).sampled = s.sampled ++ extra
      ∧ ∀ e ∈ extra, e.2 = (s.m_audio_data e.1).val * 256
  | 0, _, s => ⟨[], by simp [fill_loop], by simp⟩
  | n + 1, i, s => by
    obtain ⟨x, hx, hxe⟩ := fill_slot_history p i s
    obtain ⟨y, hy, hye⟩ := fill_loop_history p n (i + 1) (fill_slot p i s)
    refine ⟨x ++ y, ?_, ?_⟩
    · show (fill_loop p n (i + 1) (fill_slot p i s)).sampled = _
      rw [hy, hx, List.append_assoc]
    · intro e he
      rcases List.mem_append.mp he with h | h
      · exact hxe e h
      · rw [← fill_slot_data p i s]; exact hye e h

/-! ## State-machine steps of the handler -/

theorem handler_idle (s : Engine) (p n : Nat) (h : s.m_audio_state = AUDIO_STATE_IDLE) :
    i2s_event_handler s p n = s := by
  unfold i2s_event_handler; rw [h]

theorem handler_finished (s : Engine) (p n : Nat) (h : s.m_audio_state = AUDIO_STATE_FINISHED) :
    i2s_event_handler s p n = s := by
  unfold i2s_event_handler; rw [h]

theorem handler_finishing (s : Engine) (p n : Nat) (h : s.m_audio_state = AUDIO_STATE_FINISHING) :
    i2s_event_handler s p n =
      { s with m_buffer_tx := memset0 s.m_buffer_tx p n, m_audio_state := AUDIO_STATE_FINISHED } := by
  unfold i2s_event_handler; rw [h]

theorem handler_playing_done (s : Engine) (p n : Nat) (h : s.m_audio_state = AUDIO_STATE_PLAYING)
    (hc : s.m_audio_length ≤ s.m_audio_index) :
    i2s_event_handler s p n =
      { s with m_buffer_tx := memset0 s.m_buffer_tx p n, m_audio_state := AUDIO_STATE_FINISHING } := by
  unfold i2s_event_handler; rw [h]
  simp only [if_neg (Nat.not_lt.mpr hc)]

theorem handler_playing_fill (s : Engine) (p n : Nat) (h : s.m_audio_state = AUDIO_STATE_PLAYING)
    (hc : s.m_audio_index < s.m_audio_length) :
    i2s_event_handler s p n = fill_loop p n 0 s := by
  unfold i2s_event_handler; rw [h]
  simp only [if_pos hc]
  have : ({ s with m_audio_state := AUDIO_STATE_PLAYING } : Engine) = s := by
    cases s; simp_all
  rw [this]

theorem handler_history (s : Engine) (p n : Nat) :
    ∃ extra : List (Nat × Nat), (i2s_event_handler s p n).sampled = s.sampled ++ extra
      ∧ ∀ e ∈ extra, e.2 = (s.m_audio_data e.1).val * 256 := by
  cases h : s.m_audio_state
  · rw [handler_idle s p n h]; exact ⟨[], by simp, by simp⟩
  · by_cases hc : s.m_audio_index < s.m_audio_length
    · rw [handler_playing_fill s p n h hc]; exact fill_loop_history p n 0 s
    · rw [handler_playing_done s p n h (Nat.not_lt.mp hc)]; exact ⟨[], by simp, by simp⟩
  · rw [handler_finishing s p n h]; exact ⟨[], by simp, by simp⟩
  · rw [handler_finished s p n h]; exact ⟨[], by simp, by simp⟩

/-- Slot `i` of a block filled in state Playing, when the cursor on reaching the slot is
still below the length. -/
theorem handler_slot (s : Engine) (p n i : Nat)
    (hst : s.m_audio_state = AUDIO_STATE_PLAYING) (hlen : s.m_audio_length ≤ 65535)
    (hi : i < n) (hc : s.m_audio_index + 2 * i < s.m_audio_length) :
    (i2s_event_handler s p n).m_buffer_tx (2 * p + 2 * i)
      = (s.m_audio_data (s.m_audio_index + 2 * i)).val * 256
    ∧ (i2s_event_handler s p n).m_buffer_tx (2 * p + (2 * i + 1))
      = (s.m_audio_data (s.m_audio_index + 2 * i + 1)).val * 256 := by
  rw [handler_playing_fill s p n hst (by omega)]
  have en : n = i + ((n - i - 1) + 1) := by omega
  rw [en, fill_loop_split p i _ 0 s]
  obtain ⟨hidx, -, -⟩ := fill_loop_sampled p 0 s i (by omega) (by omega)
  have hl := fill_loop_length p i 0 s
  have hd := fill_loop_data p i 0 s
  obtain ⟨-, -, b0, b1⟩ := fill_slot_sample p i (fill_loop p i 0 s)
    (by rw [hidx, hl]; exact hc) (by rw [hidx]; omega)
  show (fill_loop p (n - i - 1) (0 + i + 1) (fill_slot p (0 + i) (fill_loop p i 0 s))).m_buffer_tx _ = _
    ∧ (fill_loop p (n - i - 1) (0 + i + 1) (fill_slot p (0 + i) (fill_loop p i 0 s))).m_buffer_tx _ = _
  rw [Nat.zero_add]
  rw [fill_loop_buffer_outside p _ _ _ _ (Or.inl (by omega)),
    fill_loop_buffer_outside p _ _ _ _ (Or.inl (by omega)), b0, b1, hidx, hd]
  exact ⟨rfl, rfl⟩

/-- A whole block filled in state Playing with the cursor below the length, when the
cursor does not pass 65535 inside the block. -/
theorem handler_playing_block (s : Engine) (p n : Nat)
    (hst : s.m_audio_state = AUDIO_STATE_PLAYING)
    (hc : s.m_audio_index < s.m_audio_length)
    (hw : s.m_audio_index + 2 * slots_from_source s.m_audio_length s.m_audio_index n ≤ 65535) :
    (i2s_event_handler s p n).m_audio_state = AUDIO_STATE_PLAYING
    ∧ (i2s_event_handler s p n).m_audio_index
        = s.m_audio_index + 2 * slots_from_source s.m_audio_length s.m_audio_index n
    ∧ (i2s_event_handler s p n).sampled
        = s.sampled ++ samples_from s.m_audio_data s.m_audio_index
            (2 * slots_from_source s.m_audio_length s.m_audio_index n)
    ∧ (∀ j, j < 2 * slots_from_source s.m_audio_length s.m_audio_index n →
        (i2s_event_handler s p n).m_buffer_tx (2 * p + j)
          = (s.m_audio_data (s.m_audio_index + j)).val * 256)
    ∧ (∀ j, 2 * slots_from_source s.m_audio_length s.m_audio_index n ≤ j → j < 2 * n →
        (i2s_event_handler s p n).m_buffer_tx (2 * p + j) = 0)
    ∧ (∀ j, (j < 2 * p ∨ 2 * p + 2 * n ≤ j) →
        (i2s_event_handler s p n).m_buffer_tx j = s.m_buffer_tx j) := by
  rw [handler_playing_fill s p n hst hc]
  generalize hm : slots_from_source s.m_audio_length s.m_audio_index n = m at hw
  have hmn : m ≤ n := by rw [← hm]; exact Nat.min_le_left _ _
  have hmL : m ≤ (s.m_audio_length - s.m_audio_index + 1) / 2 := by
    rw [← hm]; exact Nat.min_le_right _ _
  have hcase : m = n ∨ m = (s.m_audio_length - s.m_audio_index + 1) / 2 := by
    rw [← hm]; unfold slots_from_source; omega
  obtain ⟨hidx, hsam, hbuf⟩ := fill_loop_sampled p 0 s m (by omega) hw
  have hl := fill_loop_length p m 0 s
  refine ⟨by rw [fill_loop_state, hst], ?_, ?_, ?_, ?_, ?_⟩
  · have en : n = m + (n - m) := by omega
    rw [en, fill_loop_split]
    by_cases hfull : m = n
    · rw [hfull, Nat.sub_self]; show (fill_loop p n 0 s).m_audio_index = _
      rw [← hfull]; exact hidx
    · rw [(fill_loop_pad p (0 + m) (fill_loop p m 0 s) (by rw [hidx, hl]; omega) (n - m)).1, hidx]
  · have en : n = m + (n - m) := by omega
    rw [en, fill_loop_split]
    by_cases hfull : m = n
    · rw [hfull, Nat.sub_self]; show (fill_loop p n 0 s).sampled = _
      rw [← hfull]; exact hsam
    · rw [(fill_loop_pad p (0 + m) (fill_loop p m 0 s) (by rw [hidx, hl]; omega) (n - m)).2.1, hsam]
  · intro j hj
    have en : n = m + (n - m) := by omega
    rw [en, fill_loop_split, fill_loop_buffer_outside p _ _ _ _ (Or.inl (by omega))]
    have := hbuf j hj
    rw [Nat.mul_zero, Nat.add_zero] at this
    exact this
  · intro j hj1 hj2
    have hne : m ≠ n := by omega
    have en : n = m + (n - m) := by omega
    rw [en, fill_loop_split]
    have := (fill_loop_pad p (0 + m) (fill_loop p m 0 s) (by rw [hidx, hl]; omega) (n - m)).2.2
      (j - 2 * m) (by omega)
    have e : 2 * p + 2 * (0 + m) + (j - 2 * m) = 2 * p + j := by omega
    rw [e] at this
    exact this
  · intro j hj
    exact fill_loop_buffer_outside p n 0 s j (by omega)

/-- One invocation leaves the state alone or moves it one step forward. -/
theorem handler_step (s : Engine) (p n : Nat) :
    (i2s_event_handler s p n).m_audio_state = s.m_audio_state
    ∨ (s.m_audio_state = AUDIO_STATE_PLAYING
        ∧ (i2s_event_handler s p n).m_audio_state = AUDIO_STATE_FINISHING)
    ∨ (s.m_audio_state = AUDIO_STATE_FINISHING
        ∧ (i2s_event_handler s p n).m_audio_state = AUDIO_STATE_FINISHED) := by
  cases h : s.m_audio_state
  · rw [handler_idle s p n h]; exact Or.inl h
  · by_cases hc : s.m_audio_index < s.m_audio_length
    · rw [handler_playing_fill s p n h hc, fill_loop_state]; exact Or.inl h
    · rw [handler_playing_done s p n h (Nat.not_lt.mp hc)]; exact Or.inr (Or.inl ⟨rfl, rfl⟩)
  · rw [handler_finishing s p n h]; exact Or.inr (Or.inr ⟨rfl, rfl⟩)
  · rw [handler_finished s p n h]; exact Or.inl h

theorem handler_rank (s : Engine) (p n : Nat) :
    s.m_audio_state.rank ≤ (i2s_event_handler s p n).m_audio_state.rank
    ∧ (i2s_event_handler s p n).m_audio_state.rank ≤ s.m_audio_state.rank + 1 := by
  rcases handler_step s p n with h | ⟨h1, h2⟩ | ⟨h1, h2⟩
  · rw [h]; omega
  · rw [h1, h2]; simp [audio_state_t.rank]
  · rw [h1, h2]; simp [audio_state_t.rank]

theorem i2s_run_rank (t : Nat → Nat × Nat) (s : Engine) (j : Nat) : ∀ k : Nat,
    (i2s_run t s j).m_audio_state.rank ≤ (i2s_run t s (j + k)).m_audio_state.rank
    ∧ (i2s_run t s (j + k)).m_audio_state.rank ≤ (i2s_run t s j).m_audio_state.rank + k
  | 0 => by simp
  | k + 1 => by
    have ih := i2s_run_rank t s j k
    have hs := handler_rank (i2s_run t s (j + k)) (t (j + k)).1 (t (j + k)).2
    have e : i2s_run t s (j + (k + 1))
        = i2s_event_handler (i2s_run t s (j + k)) (t (j + k)).1 (t (j + k)).2 := rfl
    rw [e]
    omega

theorem run_idle_stays (t : Nat → Nat × Nat) (s : Engine) (j : Nat)
    (h : (i2s_run t s j).m_audio_state = AUDIO_STATE_IDLE) : ∀ k : Nat,
    (i2s_run t s (j + k)).m_audio_state = AUDIO_STATE_IDLE
  | 0 => h
  | k + 1 => by
    have ih := run_idle_stays t s j h k
    show (i2s_event_handler (i2s_run t s (j + k)) _ _).m_audio_state = _
    rw [handler_idle _ _ _ ih]; exact ih

theorem run_finished_stays (t : Nat → Nat × Nat) (s : Engine) (j : Nat)
    (h : (i2s_run t s j).m_audio_state = AUDIO_STATE_FINISHED) : ∀ k : Nat,
    (i2s_run t s (j + k)).m_audio_state = AUDIO_STATE_FINISHED
  | 0 => h
  | k + 1 => by
    have ih := run_finished_stays t s j h k
    show (i2s_event_handler (i2s_run t s (j + k)) _ _).m_audio_state = _
    rw [handler_finished _ _ _ ih]; exact ih

theorem handler_length (s : Engine) (p n : Nat) :
    (i2s_event_handler s p n).m_audio_length = s.m_audio_length := by
  unfold i2s_event_handler
  split
  · rfl
  · split
    · rw [fill_loop_length]
    · rfl
  · rfl
  · rfl

theorem handler_data (s : Engine) (p n : Nat) :
    (i2s_event_handler s p n).m_audio_data = s.m_audio_data := by
  unfold i2s_event_handler
  split
  · rfl
  · split
    · rw [fill_loop_data]
    · rfl
  · rfl
  · rfl

theorem run_length (t : Nat → Nat × Nat) (s : Engine) : ∀ k : Nat,
    (i2s_run t s k).m_audio_length = s.m_audio_length
  | 0 => rfl
  | k + 1 => by
    show (i2s_event_handler (i2s_run t s k) _ _).m_audio_length = _
    rw [handler_length, run_length t s k]

theorem run_data (t : Nat → Nat × Nat) (s : Engine) : ∀ k : Nat,
    (i2s_run t s k).m_audio_data = s.m_audio_data
  | 0 => rfl
  | k + 1 => by
    show (i2s_event_handler (i2s_run t s k) _ _).m_audio_data = _
    rw [handler_data, run_data t s k]

/-- Unrolling a run at its first request. -/
theorem run_front (t : Nat → Nat × Nat) (s : Engine) : ∀ n : Nat,
    i2s_run t s (n + 1) = i2s_run (fun j => t (j + 1)) (i2s_event_handler s (t 0).1 (t 0).2) n
  | 0 => rfl
  | n + 1 => by
    show i2s_event_handler (i2s_run t s (n + 1)) (t (n + 1)).1 (t (n + 1)).2
      = i2s_event_handler (i2s_run (fun j => t (j + 1)) _ n) (t (n + 1)).1 (t (n + 1)).2
    rw [run_front t s n]

theorem memset0_block (buf : Nat → Nat) (p n j : Nat) (hj : j < 2 * n) :
    memset0 buf p n (2 * p + j) = 0 := by
  unfold memset0
  rw [if_pos ⟨by omega, by omega⟩]

/-- A run that starts in Playing either is still in Playing after `n` invocations or has
left Playing at one invocation entered with the cursor at or beyond the length. -/
theorem run_playing_until (t : Nat → Nat × Nat) (s : Engine)
    (h0 : s.m_audio_state = AUDIO_STATE_PLAYING) : ∀ n : Nat,
    (∀ j, j ≤ n → (i2s_run t s j).m_audio_state = AUDIO_STATE_PLAYING)
    ∨ ∃ k, k < n
        ∧ (∀ j, j ≤ k → (i2s_run t s j).m_audio_state = AUDIO_STATE_PLAYING)
        ∧ (i2s_run t s k).m_audio_length ≤ (i2s_run t s k).m_audio_index
        ∧ (i2s_run t s (k + 1)).m_audio_state = AUDIO_STATE_FINISHING
  | 0 => Or.inl (fun j hj => by
      have : j = 0 := by omega
      subst this; exact h0)
  | n + 1 => by
    rcases run_playing_until t s h0 n with hall | ⟨k, hk, hp, hc, hf⟩
    · have hn := hall n (Nat.le_refl n)
      by_cases hc : (i2s_run t s n).m_audio_index < (i2s_run t s n).m_audio_length
      · left
        intro j hj
        by_cases hjn : j ≤ n
        · exact hall j hjn
        · have : j = n + 1 := by omega
          subst this
          show (i2s_event_handler (i2s_run t s n) _ _).m_audio_state = _
          rw [handler_playing_fill _ _ _ hn hc, fill_loop_state, hn]
      · right
        refine ⟨n, by omega, hall, Nat.not_lt.mp hc, ?_⟩
        show (i2s_event_handler (i2s_run t s n) _ _).m_audio_state = _
        rw [handler_playing_done _ _ _ hn (Nat.not_lt.mp hc)]
    · exact Or.inr ⟨k, by omega, hp, hc, hf⟩

/-- How a run that starts in Playing can arrive in Finished. -/
theorem run_finished_history (t : Nat → Nat × Nat) (s : Engine) (n : Nat)
    (h0 : s.m_audio_state = AUDIO_STATE_PLAYING)
    (hn : (i2s_run t s n).m_audio_state = AUDIO_STATE_FINISHED) :
    ∃ k, k + 2 ≤ n
      ∧ (∀ j, j ≤ k → (i2s_run t s j).m_audio_state = AUDIO_STATE_PLAYING)
      ∧ (i2s_run t s k).m_audio_length ≤ (i2s_run t s k).m_audio_index
      ∧ (i2s_run t s (k + 1)).m_audio_state = AUDIO_STATE_FINISHING
      ∧ (∀ j, j < 2 * (t k).2 → (i2s_run t s (k + 1)).m_buffer_tx (2 * (t k).1 + j) = 0)
      ∧ (i2s_run t s (k + 2)).m_audio_state = AUDIO_STATE_FINISHED
      ∧ (∀ j, j < 2 * (t (k + 1)).2 →
          (i2s_run t s (k + 2)).m_buffer_tx (2 * (t (k + 1)).1 + j) = 0)
      ∧ ∀ j, k + 2 ≤ j → (i2s_run t s j).m_audio_state = AUDIO_STATE_FINISHED := by
  rcases run_playing_until t s h0 n with hall | ⟨k, hk, hp, hc, hf⟩
  · have := hall n (Nat.le_refl n)
    rw [hn] at this; cases this
  · have hne : k + 1 ≠ n := by
      intro e; subst e; rw [hn] at hf; cases hf
    have e1 : i2s_run t s (k + 1) = i2s_event_handler (i2s_run t s k) (t k).1 (t k).2 := rfl
    have e2 : i2s_run t s (k + 2)
        = i2s_event_handler (i2s_run t s (k + 1)) (t (k + 1)).1 (t (k + 1)).2 := rfl
    have hfin : (i2s_run t s (k + 2)).m_audio_state = AUDIO_STATE_FINISHED := by
      rw [e2, handler_finishing _ _ _ hf]
    refine ⟨k, by omega, hp, hc, hf, ?_, hfin, ?_, ?_⟩
    · intro j hj
      rw [e1, handler_playing_done _ _ _ (hp k (Nat.le_refl k)) hc]
      exact memset0_block _ _ _ _ hj
    · intro j hj
      rw [e2, handler_finishing _ _ _ hf]
      exact memset0_block _ _ _ _ hj
    · intro j hj
      have := run_finished_stays t s (k + 2) hfin (j - (k + 2))
      have e : k + 2 + (j - (k + 2)) = j := by omega
      rw [e] at this
      exact this

/-- An invocation that leaves the state at Finishing was entered in Playing with the
cursor at or beyond the length, and zero-filled its block. -/
theorem handler_sets_finishing (s : Engine) (p n : Nat)
    (h : (i2s_event_handler s p n).m_audio_state = AUDIO_STATE_FINISHING) :
    s.m_audio_state = AUDIO_STATE_PLAYING
    ∧ s.m_audio_length ≤ s.m_audio_index
    ∧ ∀ j, j < 2 * n → (i2s_event_handler s p n).m_buffer_tx (2 * p + j) = 0 := by
  cases hs : s.m_audio_state
  · rw [handler_idle s p n hs, hs] at h; cases h
  · by_cases hc : s.m_audio_index < s.m_audio_length
    · rw [handler_playing_fill s p n hs hc, fill_loop_state, hs] at h; cases h
    · refine ⟨rfl, Nat.not_lt.mp hc, fun j hj => ?_⟩
      rw [handler_playing_done s p n hs (Nat.not_lt.mp hc)]
      exact memset0_block _ _ _ _ hj
  · rw [handler_finishing s p n hs] at h; cases h
  · rw [handler_finished s p n hs, hs] at h; cases h

/-- An invocation that changes the state to Finished was entered in Finishing and
zero-filled its block. -/
theorem handler_sets_finished (s : Engine) (p n : Nat)
    (h : (i2s_event_handler s p n).m_audio_state = AUDIO_STATE_FINISHED)
    (hne : s.m_audio_state ≠ AUDIO_STATE_FINISHED) :
    s.m_audio_state = AUDIO_STATE_FINISHING
    ∧ ∀ j, j < 2 * n → (i2s_event_handler s p n).m_buffer_tx (2 * p + j) = 0 := by
  cases hs : s.m_audio_state
  · rw [handler_idle s p n hs, hs] at h; cases h
  · by_cases hc : s.m_audio_index < s.m_audio_length
    · rw [handler_playing_fill s p n hs hc, fill_loop_state, hs] at h; cases h
    · rw [handler_playing_done s p n hs (Nat.not_lt.mp hc)] at h; cases h
  · refine ⟨rfl, fun j hj => ?_⟩
    rw [handler_finishing s p n hs]
    exact memset0_block _ _ _ _ hj
  · exact absurd hs hne

/-- C3: for every request sequence `t` and every starting state, one invocation of the
handler either leaves the playback state unchanged or advances it by exactly one step
(Playing to Finishing, or Finishing to Finished); it never leaves Idle and never leaves
Finished; and along the whole run the position in the order
Idle < Playing < Finishing < Finished never decreases and grows by at most one per
invocation. -/
theorem C3_state_order (t : Nat → Nat × Nat) (s : Engine) (j k : Nat) :
    ((i2s_run t s (j + 1)).m_audio_state = (i2s_run t s j).m_audio_state
      ∨ ((i2s_run t s j).m_audio_state = AUDIO_STATE_PLAYING
          ∧ (i2s_run t s (j + 1)).m_audio_state = AUDIO_STATE_FINISHING)
      ∨ ((i2s_run t s j).m_audio_state = AUDIO_STATE_FINISHING
          ∧ (i2s_run t s (j + 1)).m_audio_state = AUDIO_STATE_FINISHED))
    ∧ ((i2s_run t s j).m_audio_state = AUDIO_STATE_IDLE
        → (i2s_run t s (j + k)).m_audio_state = AUDIO_STATE_IDLE)
    ∧ ((i2s_run t s j).m_audio_state = AUDIO_STATE_FINISHED
        → (i2s_run t s (j + k)).m_audio_state = AUDIO_STATE_FINISHED)
    ∧ (i2s_run t s j).m_audio_state.rank ≤ (i2s_run t s (j + k)).m_audio_state.rank
    ∧ (i2s_run t s (j + k)).m_audio_state.rank ≤ (i2s_run t s j).m_audio_state.rank + k := by
  exact ⟨handler_step _ _ _, fun h => run_idle_stays t s j h k, fun h => run_finished_stays t s j h k,
    (i2s_run_rank t s j k).1, (i2s_run_rank t s j k).2⟩

/-! ## Lifecycle calls -/

/-- C5: for every engine state `s`, every source view and every behaviour of the
transport, `audio_play(data, 0)` returns at once with `s` unchanged: playback state,
amplifier pin, transport, source view, length, cursor and transfer buffer are all
as before. -/
theorem C5_play_zero_length (fuel : Nat) (t : Nat → Nat × Nat) (s : Engine)
    (p_audio_data : Nat → Fin 256) :
    audio_play fuel t s p_audio_data 0 = some s := by
  simp [audio_play]

/-- C7: for every length greater than zero and every prior engine state, `audio_play`
consists of the arming phase followed by the wait loop and `audio_stop`; the arming
phase stores the source view and the length, sets the cursor to 0 and the state to
Playing, sets the amplifier pin and starts the transport on the 1000-word transfer
buffer, whose contents it leaves alone; the arming phase starts the transport exactly
once, and at the moment of that call the amplifier pin is already set, whatever level
it had before `audio_play` was called. -/
theorem C7_play_arms (fuel : Nat) (t : Nat → Nat × Nat) (s : Engine)
    (p_audio_data : Nat → Fin 256) (audio_length : Nat) (hlen : 0 < audio_length) :
    audio_play fuel t s p_audio_data audio_length
      = Option.map audio_stop (audio_wait fuel t (audio_play_arm s p_audio_data audio_length))
    ∧ (audio_play_arm s p_audio_data audio_length).m_audio_data = p_audio_data
    ∧ (audio_play_arm s p_audio_data audio_length).m_audio_length = audio_length
    ∧ (audio_play_arm s p_audio_data audio_length).m_audio_index = 0
    ∧ (audio_play_arm s p_audio_data audio_length).m_audio_state = AUDIO_STATE_PLAYING
    ∧ (audio_play_arm s p_audio_data audio_length).audio_ctrl_pin = true
    ∧ (audio_play_arm s p_audio_data audio_length).i2s_tx = some 1000
    ∧ (audio_play_arm s p_audio_data audio_length).m_buffer_tx = s.m_buffer_tx
    ∧ (audio_play_arm s p_audio_data audio_length).amp_at_start = s.amp_at_start ++ [true] := by
  refine ⟨?_, rfl, rfl, rfl, rfl, rfl, rfl, rfl, rfl⟩
  unfold audio_play
  rw [if_neg (Nat.pos_iff_ne_zero.mp hlen)]
  cases audio_wait fuel t (audio_play_arm s p_audio_data audio_length) <;> rfl

/-- Arming the scenario session on an idle engine, whose amplifier pin is low: the one
start of the transport finds the pin high. -/
theorem C7_play_arms_witness :
    (audio_play_arm (engine_idle 0x5A5A) scenario_source 4).m_audio_state = AUDIO_STATE_PLAYING
    ∧ (audio_play_arm (engine_idle 0x5A5A) scenario_source 4).m_audio_index = 0
    ∧ (audio_play_arm (engine_idle 0x5A5A) scenario_source 4).audio_ctrl_pin = true
    ∧ (audio_play_arm (engine_idle 0x5A5A) scenario_source 4).i2s_tx = some 1000
    ∧ (engine_idle 0x5A5A).audio_ctrl_pin = false
    ∧ (audio_play_arm (engine_idle 0x5A5A) scenario_source 4).amp_at_start = [true] :=
  have h := C7_play_arms 0 (alternating 1) (engine_idle 0x5A5A) scenario_source 4 (by decide)
  ⟨h.2.2.2.2.1, h.2.2.2.1, h.2.2.2.2.2.1, h.2.2.2.2.2.2.1, rfl, h.2.2.2.2.2.2.2.2⟩

/-- C9: for every engine state, `audio_stop` yields playback state Idle, transport
halted and amplifier pin cleared, and leaves source view, length, cursor and transfer
buffer unchanged; so a second `audio_stop` changes nothing, and from Idle the playback
state stays Idle. -/
theorem C9_stop (s : Engine) :
    (audio_stop s).m_audio_state = AUDIO_STATE_IDLE
    ∧ (audio_stop s).i2s_tx = none
    ∧ (audio_stop s).audio_ctrl_pin = false
    ∧ (audio_stop s).m_audio_data = s.m_audio_data
    ∧ (audio_stop s).m_audio_length = s.m_audio_length
    ∧ (audio_stop s).m_audio_index = s.m_audio_index
    ∧ (audio_stop s).m_buffer_tx = s.m_buffer_tx
    ∧ audio_stop (audio_stop s) = audio_stop s :=
  ⟨rfl, rfl, rfl, rfl, rfl, rfl, rfl, rfl⟩

/-! ## Runs of the handler in state Playing -/

theorem words_requested_const (off : Nat → Nat) (B : Nat) : ∀ k : Nat,
    words_requested (fun j => (off j, B)) k = B * k
  | 0 => rfl
  | k + 1 => by
    show words_requested (fun j => (off j, B)) k + B = B * (k + 1)
    rw [words_requested_const off B k, Nat.mul_succ]

theorem samples_from_append (d : Nat → Fin 256) (c a b : Nat) :
    samples_from d c a ++ samples_from d (c + a) b = samples_from d c (a + b) := by
  induction b with
  | zero => simp [samples_from]
  | succ b ih =>
    rw [← Nat.add_assoc, samples_from_succ, samples_from_succ, ← List.append_assoc, ih,
      Nat.add_assoc]

/-- While every earlier invocation was entered with fewer than `length` bytes requested,
a session of length at most 65534 that starts with cursor 0 stays in Playing, its
cursor is twice the number of words requested so far, capped at the length rounded up
to even, and exactly the bytes below the cursor have been sampled, in order. -/
theorem run_playing (t : Nat → Nat × Nat) (s : Engine)
    (hst : s.m_audio_state = AUDIO_STATE_PLAYING) (hidx : s.m_audio_index = 0)
    (hlen : s.m_audio_length ≤ 65534) : ∀ k : Nat,
    (∀ j, j < k → 2 * words_requested t j < s.m_audio_length) →
    (i2s_run t s k).m_audio_state = AUDIO_STATE_PLAYING
    ∧ (i2s_run t s k).m_audio_length = s.m_audio_length
    ∧ (i2s_run t s k).m_audio_data = s.m_audio_data
    ∧ (i2s_run t s k).m_audio_index
        = min (2 * words_requested t k) (2 * ((s.m_audio_length + 1) / 2))
    ∧ (i2s_run t s k).sampled
        = s.sampled ++ samples_from s.m_audio_data 0
            (min (2 * words_requested t k) (2 * ((s.m_audio_length + 1) / 2)))
  | 0, _ => by
    refine ⟨hst, rfl, rfl, ?_, ?_⟩
    · show s.m_audio_index = _
      rw [hidx]; simp [words_requested]
    · show s.sampled = _
      simp [words_requested, samples_from]
  | k + 1, h => by
    obtain ⟨ist, ilen, idat, iidx, isam⟩ := run_playing t s hst hidx hlen k
      (fun j hj => h j (by omega))
    have hk := h k (by omega)
    have hlt : (i2s_run t s k).m_audio_index < (i2s_run t s k).m_audio_length := by
      rw [iidx, ilen]; omega
    obtain ⟨bst, bidx, bsam, -⟩ := handler_playing_block (i2s_run t s k) (t k).1 (t k).2 ist hlt
      (by rw [iidx, ilen]; unfold slots_from_source; omega)
    have hl : (i2s_run t s (k + 1)).m_audio_length = s.m_audio_length := by
      show (i2s_event_handler (i2s_run t s k) (t k).1 (t k).2).m_audio_length = _
      rw [handler_playing_fill _ _ _ ist hlt, fill_loop_length, ilen]
    have hd : (i2s_run t s (k + 1)).m_audio_data = s.m_audio_data := by
      show (i2s_event_handler (i2s_run t s k) (t k).1 (t k).2).m_audio_data = _
      rw [handler_playing_fill _ _ _ ist hlt, fill_loop_data, idat]
    have enew : (i2s_run t s k).m_audio_index
          + 2 * slots_from_source (i2s_run t s k).m_audio_length (i2s_run t s k).m_audio_index (t k).2
        = min (2 * words_requested t (k + 1)) (2 * ((s.m_audio_length + 1) / 2)) := by
      rw [iidx, ilen]
      show _ = min (2 * (words_requested t k + (t k).2)) _
      unfold slots_from_source; omega
    refine ⟨bst, hl, hd, ?_, ?_⟩
    · show (i2s_event_handler (i2s_run t s k) (t k).1 (t k).2).m_audio_index = _
      rw [bidx, enew]
    · show (i2s_event_handler (i2s_run t s k) (t k).1 (t k).2).sampled = _
      rw [bsam, isam, idat, List.append_assoc]
      have := samples_from_append s.m_audio_data 0 (i2s_run t s k).m_audio_index
        (2 * slots_from_source (i2s_run t s k).m_audio_length (i2s_run t s k).m_audio_index (t k).2)
      rw [Nat.zero_add, enew] at this
      rw [← iidx, this]

theorem playing_blocks_spec (L B : Nat) (hB : 1 ≤ B) :
    (L + 1) / 2 ≤ B * playing_blocks L B
    ∧ ∀ j, j < playing_blocks L B → B * j < (L + 1) / 2 := by
  unfold playing_blocks
  have h1 := Nat.div_add_mod ((L + 1) / 2 + B - 1) B
  have h2 := Nat.mod_lt ((L + 1) / 2 + B - 1) (show B > 0 by omega)
  generalize ((L + 1) / 2 + B - 1) / B = K at h1 ⊢
  generalize ((L + 1) / 2 + B - 1) % B = r at h1 h2
  refine ⟨by omega, ?_⟩
  intro j hj
  have h3 : B * (j + 1) ≤ B * K := Nat.mul_le_mul_left B (by omega)
  rw [Nat.mul_succ] at h3
  omega

/-! ## Sessions -/

/-- C1: for every even length `L <= 65534` (in particular every even `L` with
`0 < L <= 65534`, the lengths for which `audio_play` arms), every source view and every
capacity `B >= 1`, starting from the state armed by `audio_play` (cursor 0, state
Playing) and serving requests of capacity `B`: the first `playing_blocks L B`
invocations are entered in state Playing with the cursor below `L`; the next one is
entered in state Playing with the cursor exactly `L`, writes a block of zeros and
moves the state to Finishing, leaving the cursor at `L`; and the half-words written
from the source up to then are `source[0]*256, ..., source[L-1]*256`, each byte once
and in order: the write history lists them so, and half-word `h` of the block of
invocation `j` holds `source[2*B*j + h] * 256` whenever `2*B*j + h < L`. -/
theorem C1_every_sample_once (s0 : Engine) (d : Nat → Fin 256) (L B : Nat) (off : Nat → Nat)
    (heven : L % 2 = 0) (hmax : L ≤ 65534) (hB : 1 ≤ B) :
    (audio_play_arm s0 d L).m_audio_index = 0
    ∧ (audio_play_arm s0 d L).m_audio_state = AUDIO_STATE_PLAYING
    ∧ (∀ j, j < playing_blocks L B →
        (i2s_run (fixed_capacity off B) (audio_play_arm s0 d L) j).m_audio_state
          = AUDIO_STATE_PLAYING
        ∧ (i2s_run (fixed_capacity off B) (audio_play_arm s0 d L) j).m_audio_index < L)
    ∧ (i2s_run (fixed_capacity off B) (audio_play_arm s0 d L) (playing_blocks L B)).m_audio_state
        = AUDIO_STATE_PLAYING
    ∧ (i2s_run (fixed_capacity off B) (audio_play_arm s0 d L) (playing_blocks L B)).m_audio_index
        = L
    ∧ (i2s_run (fixed_capacity off B) (audio_play_arm s0 d L)
        (playing_blocks L B + 1)).m_audio_state = AUDIO_STATE_FINISHING
    ∧ (i2s_run (fixed_capacity off B) (audio_play_arm s0 d L)
        (playing_blocks L B + 1)).m_audio_index = L
    ∧ (∀ j, j < 2 * B →
        (i2s_run (fixed_capacity off B) (audio_play_arm s0 d L)
          (playing_blocks L B + 1)).m_buffer_tx (2 * off (playing_blocks L B) + j) = 0)
    ∧ (i2s_run (fixed_capacity off B) (audio_play_arm s0 d L) (playing_blocks L B)).sampled
        = s0.sampled ++ (List.range L).map (fun k => (k, (d k).val * 256))
    ∧ (∀ j h, j < playing_blocks L B → h < 2 * B → 2 * (B * j) + h < L →
        (i2s_run (fixed_capacity off B) (audio_play_arm s0 d L) (j + 1)).m_buffer_tx
          (2 * off j + h) = (d (2 * (B * j) + h)).val * 256) := by
  obtain ⟨hK, hlt⟩ := playing_blocks_spec L B hB
  have hreq : ∀ j, j < playing_blocks L B →
      2 * words_requested (fixed_capacity off B) j < (audio_play_arm s0 d L).m_audio_length := by
    intro j hj
    have := hlt j hj
    show 2 * words_requested (fun j => (off j, B)) j < L
    rw [words_requested_const]; omega
  have inv := run_playing (fixed_capacity off B) (audio_play_arm s0 d L) rfl rfl hmax
  obtain ⟨kst, klen, -, kidx, ksam⟩ := inv (playing_blocks L B) hreq
  have ecur : min (2 * words_requested (fixed_capacity off B) (playing_blocks L B))
      (2 * (((audio_play_arm s0 d L).m_audio_length + 1) / 2)) = L := by
    show min (2 * words_requested (fun j => (off j, B)) (playing_blocks L B)) (2 * ((L + 1) / 2)) = L
    rw [words_requested_const]; omega
  rw [ecur] at kidx ksam
  have hstep : i2s_run (fixed_capacity off B) (audio_play_arm s0 d L) (playing_blocks L B + 1)
      = i2s_event_handler
          (i2s_run (fixed_capacity off B) (audio_play_arm s0 d L) (playing_blocks L B))
          (off (playing_blocks L B)) B := rfl
  have hdone := handler_playing_done
    (i2s_run (fixed_capacity off B) (audio_play_arm s0 d L) (playing_blocks L B))
    (off (playing_blocks L B)) B kst (by rw [kidx, klen]; exact Nat.le_refl L)
  refine ⟨rfl, rfl, ?_, kst, kidx, ?_, ?_, ?_, ?_, ?_⟩
  · intro j hj
    obtain ⟨jst, -, -, jidx, -⟩ := inv j (fun i hi => hreq i (by omega))
    refine ⟨jst, ?_⟩
    rw [jidx]
    have := hreq j hj
    exact lt_of_le_of_lt (Nat.min_le_left _ _) this
  · rw [hstep, hdone]
  · rw [hstep, hdone]; exact kidx
  · intro j hj
    rw [hstep, hdone]
    show memset0 _ (off (playing_blocks L B)) B (2 * off (playing_blocks L B) + j) = 0
    unfold memset0
    rw [if_pos ⟨by omega, by omega⟩]
  · rw [ksam]
    show s0.sampled ++ samples_from d 0 L = _
    simp [samples_from]
  · intro j h hj hh hsrc
    obtain ⟨jst, jlen, jdat, jidx, -⟩ := inv j (fun i hi => hreq i (by omega))
    have hj2 := hlt j hj
    have ecj : (i2s_run (fixed_capacity off B) (audio_play_arm s0 d L) j).m_audio_index
        = 2 * (B * j) := by
      rw [jidx]
      show min (2 * words_requested (fun j => (off j, B)) j) (2 * ((L + 1) / 2)) = _
      rw [words_requested_const]; omega
    have elj : (i2s_run (fixed_capacity off B) (audio_play_arm s0 d L) j).m_audio_length = L := jlen
    obtain ⟨-, -, -, hb, -⟩ := handler_playing_block
      (i2s_run (fixed_capacity off B) (audio_play_arm s0 d L) j) (off j) B jst
      (by rw [ecj, elj]; omega) (by rw [ecj, elj]; unfold slots_from_source; omega)
    have := hb h (by rw [ecj, elj]; unfold slots_from_source; omega)
    rw [ecj, jdat] at this
    exact this

/-- The session of C1 for the source `10 20 30 40` and capacity 1. -/
theorem C1_every_sample_once_witness :
    (i2s_run (fixed_capacity (fun _ => 0) 1)
        (audio_play_arm (engine_idle 0x5A5A) (bytes_then [0x10, 0x20, 0x30, 0x40] 0) 4) 2).sampled
      = [(0, 0x1000), (1, 0x2000), (2, 0x3000), (3, 0x4000)]
    ∧ (i2s_run (fixed_capacity (fun _ => 0) 1)
        (audio_play_arm (engine_idle 0x5A5A) (bytes_then [0x10, 0x20, 0x30, 0x40] 0) 4) 2).m_audio_index
      = 4
    ∧ (i2s_run (fixed_capacity (fun _ => 0) 1)
        (audio_play_arm (engine_idle 0x5A5A) (bytes_then [0x10, 0x20, 0x30, 0x40] 0) 4) 3).m_audio_state
      = AUDIO_STATE_FINISHING :=
  have h := C1_every_sample_once (engine_idle 0x5A5A) (bytes_then [0x10, 0x20, 0x30, 0x40] 0) 4 1
    (fun _ => 0) (by decide) (by decide) (by decide)
  ⟨h.2.2.2.2.2.2.2.2.1, h.2.2.2.2.1, h.2.2.2.2.2.1⟩

/-- C2, as stated, fails: with a capacity of 2 words per callback the first callback
already consumes all four bytes (its block is `1000 2000 3000 4000`, the cursor is
4 on exit), so it is not true that the cursor is still below 4 after callback 1 and
that Finished is not reached before callback 4: Finished is reached by callback 3. -/
theorem C2_two_words_counterexample :
    ¬ ((i2s_run (alternating 2) scenario_armed 1).m_audio_index < 4
        ∧ (i2s_run (alternating 2) scenario_armed 3).m_audio_state ≠ AUDIO_STATE_FINISHED)
    ∧ block (i2s_run (alternating 2) scenario_armed 1) 0 2 = [0x1000, 0x2000, 0x3000, 0x4000]
    ∧ (i2s_run (alternating 2) scenario_armed 1).m_audio_index = 4
    ∧ (i2s_run (alternating 2) scenario_armed 3).m_audio_state = AUDIO_STATE_FINISHED := by
  decide

/-- C2, amended: with the source `10 20 30 40` (L = 4) armed by `audio_play` and a
capacity of one 32-bit word (two half-words) per callback, callback 1 produces
`1000 2000`, leaves the state Playing and the cursor at 2; callback 2 produces
`3000 4000`, the cursor reaches 4 and the state is still Playing; callback 3 produces
an all-zero block and moves the state to Finishing; callback 4 produces an all-zero
block and moves the state to Finished, which is not reached earlier.  With a capacity
of two words, callback 1 produces `1000 2000 3000 4000` and the cursor reaches 4,
callback 2 produces zeros and sets Finishing, callback 3 produces zeros and sets
Finished. -/
theorem C2_scenario :
    (block (i2s_run (alternating 1) scenario_armed 1) 0 1 = [0x1000, 0x2000]
      ∧ (i2s_run (alternating 1) scenario_armed 1).m_audio_state = AUDIO_STATE_PLAYING
      ∧ (i2s_run (alternating 1) scenario_armed 1).m_audio_index = 2
      ∧ block (i2s_run (alternating 1) scenario_armed 2) 1 1 = [0x3000, 0x4000]
      ∧ (i2s_run (alternating 1) scenario_armed 2).m_audio_state = AUDIO_STATE_PLAYING
      ∧ (i2s_run (alternating 1) scenario_armed 2).m_audio_index = 4
      ∧ block (i2s_run (alternating 1) scenario_armed 3) 0 1 = [0, 0]
      ∧ (i2s_run (alternating 1) scenario_armed 3).m_audio_state = AUDIO_STATE_FINISHING
      ∧ block (i2s_run (alternating 1) scenario_armed 4) 1 1 = [0, 0]
      ∧ (i2s_run (alternating 1) scenario_armed 4).m_audio_state = AUDIO_STATE_FINISHED)
    ∧ (block (i2s_run (alternating 2) scenario_armed 1) 0 2 = [0x1000, 0x2000, 0x3000, 0x4000]
      ∧ (i2s_run (alternating 2) scenario_armed 1).m_audio_state = AUDIO_STATE_PLAYING
      ∧ (i2s_run (alternating 2) scenario_armed 1).m_audio_index = 4
      ∧ block (i2s_run (alternating 2) scenario_armed 2) 2 2 = [0, 0, 0, 0]
      ∧ (i2s_run (alternating 2) scenario_armed 2).m_audio_state = AUDIO_STATE_FINISHING
      ∧ block (i2s_run (alternating 2) scenario_armed 3) 0 2 = [0, 0, 0, 0]
      ∧ (i2s_run (alternating 2) scenario_armed 3).m_audio_state = AUDIO_STATE_FINISHED) := by
  decide

/-- C6: when the handler is entered in state Playing with a length of at most 65535 and
the cursor `c + 2*i` on reaching slot `i` is below the length, half-word `2*i` of the
block is the byte at `c + 2*i` times 256 and half-word `2*i + 1` is the next byte
times 256; each fits in 16 bits, has low byte 0, and shifted right by 8 gives the byte
back.  Moreover every half-word the handler writes from the source, in any state, is
the byte it read times 256. -/
theorem C6_byte_packing (s : Engine) (p n i : Nat)
    (hst : s.m_audio_state = AUDIO_STATE_PLAYING) (hlen : s.m_audio_length ≤ 65535)
    (hi : i < n) (hc : s.m_audio_index + 2 * i < s.m_audio_length) :
    ((i2s_event_handler s p n).m_buffer_tx (2 * p + 2 * i)
        = (s.m_audio_data (s.m_audio_index + 2 * i)).val * 256
      ∧ (i2s_event_handler s p n).m_buffer_tx (2 * p + 2 * i) < 65536
      ∧ (i2s_event_handler s p n).m_buffer_tx (2 * p + 2 * i) % 256 = 0
      ∧ (i2s_event_handler s p n).m_buffer_tx (2 * p + 2 * i) / 256
          = (s.m_audio_data (s.m_audio_index + 2 * i)).val)
    ∧ ((i2s_event_handler s p n).m_buffer_tx (2 * p + (2 * i + 1))
        = (s.m_audio_data (s.m_audio_index + 2 * i + 1)).val * 256
      ∧ (i2s_event_handler s p n).m_buffer_tx (2 * p + (2 * i + 1)) < 65536
      ∧ (i2s_event_handler s p n).m_buffer_tx (2 * p + (2 * i + 1)) % 256 = 0
      ∧ (i2s_event_handler s p n).m_buffer_tx (2 * p + (2 * i + 1)) / 256
          = (s.m_audio_data (s.m_audio_index + 2 * i + 1)).val)
    ∧ ∃ extra : List (Nat × Nat), (i2s_event_handler s p n).sampled = s.sampled ++ extra
        ∧ ∀ e ∈ extra, e.2 = (s.m_audio_data e.1).val * 256 := by
  obtain ⟨h0, h1⟩ := handler_slot s p n i hst hlen hi hc
  have b0 := (s.m_audio_data (s.m_audio_index + 2 * i)).isLt
  have b1 := (s.m_audio_data (s.m_audio_index + 2 * i + 1)).isLt
  refine ⟨⟨h0, ?_, ?_, ?_⟩, ⟨h1, ?_, ?_, ?_⟩, handler_history s p n⟩
  · rw [h0]; omega
  · rw [h0]; omega
  · rw [h0]; omega
  · rw [h1]; omega
  · rw [h1]; omega
  · rw [h1]; omega

/-- The byte `AB` at cursor 0 yields the half-word `AB00` in half-word 0 of the block,
and the following byte `CD` yields `CD00` in half-word 1. -/
theorem C6_byte_packing_witness :
    (i2s_event_handler (audio_play_arm (engine_idle 0x5A5A) (bytes_then [0xAB, 0xCD] 0) 2) 0 1).m_buffer_tx 0
      = 0xAB00
    ∧ (i2s_event_handler (audio_play_arm (engine_idle 0x5A5A) (bytes_then [0xAB, 0xCD] 0) 2) 0 1).m_buffer_tx 1
      = 0xCD00 :=
  have h := C6_byte_packing (audio_play_arm (engine_idle 0x5A5A) (bytes_then [0xAB, 0xCD] 0) 2) 0 1 0
    rfl (by decide) (by decide) (by decide)
  ⟨h.1.1, h.2.1.1⟩

/-- C10, evaluated on the code: `audio_play(p, 1)` with `p[0] = 10` and the byte `FF`
in the memory after the source.  The first callback (capacity 1) puts `1000` in the
first half-word of the slot and `FF00`, not 0, in the second: the byte after the source
is read and emitted, and the cursor ends at 2, beyond the length 1. -/
theorem C10_odd_length_reads_past_source :
    block (i2s_run (alternating 1)
        (audio_play_arm (engine_idle 0x5A5A) (bytes_then [0x10] 0xFF) 1) 1) 0 1 = [0x1000, 0xFF00]
    ∧ (i2s_run (alternating 1)
        (audio_play_arm (engine_idle 0x5A5A) (bytes_then [0x10] 0xFF) 1) 1).sampled
      = [(0, 0x1000), (1, 0xFF00)]
    ∧ (i2s_run (alternating 1)
        (audio_play_arm (engine_idle 0x5A5A) (bytes_then [0x10] 0xFF) 1) 1).m_audio_index = 2 := by
  decide

/-- C4: in every run of handler invocations that starts in Playing and is in Finished
after `n` invocations, there is a `k` with `k + 2 <= n` such that the state is Playing
up to and including the entry of invocation `k`, that invocation is entered with the
cursor at or beyond the length, writes `number_of_words` zero words and sets
Finishing, the next one writes `number_of_words` zero words and sets Finished, and the
state is Finished from then on; no other invocation sets Finishing or Finished. -/
theorem C4_two_silence_blocks (t : Nat → Nat × Nat) (s : Engine) (n : Nat)
    (h0 : s.m_audio_state = AUDIO_STATE_PLAYING)
    (hn : (i2s_run t s n).m_audio_state = AUDIO_STATE_FINISHED) :
    (∃ k, k + 2 ≤ n
      ∧ (∀ j, j ≤ k → (i2s_run t s j).m_audio_state = AUDIO_STATE_PLAYING)
      ∧ (i2s_run t s k).m_audio_length ≤ (i2s_run t s k).m_audio_index
      ∧ (i2s_run t s (k + 1)).m_audio_state = AUDIO_STATE_FINISHING
      ∧ (∀ j, j < 2 * (t k).2 → (i2s_run t s (k + 1)).m_buffer_tx (2 * (t k).1 + j) = 0)
      ∧ (i2s_run t s (k + 2)).m_audio_state = AUDIO_STATE_FINISHED
      ∧ (∀ j, j < 2 * (t (k + 1)).2 →
          (i2s_run t s (k + 2)).m_buffer_tx (2 * (t (k + 1)).1 + j) = 0)
      ∧ ∀ j, k + 2 ≤ j → (i2s_run t s j).m_audio_state = AUDIO_STATE_FINISHED)
    ∧ (∀ i, (i2s_run t s (i + 1)).m_audio_state = AUDIO_STATE_FINISHING →
        (i2s_run t s i).m_audio_state = AUDIO_STATE_PLAYING
        ∧ (i2s_run t s i).m_audio_length ≤ (i2s_run t s i).m_audio_index
        ∧ ∀ j, j < 2 * (t i).2 → (i2s_run t s (i + 1)).m_buffer_tx (2 * (t i).1 + j) = 0)
    ∧ (∀ i, (i2s_run t s (i + 1)).m_audio_state = AUDIO_STATE_FINISHED →
        (i2s_run t s i).m_audio_state ≠ AUDIO_STATE_FINISHED →
        (i2s_run t s i).m_audio_state = AUDIO_STATE_FINISHING
        ∧ ∀ j, j < 2 * (t i).2 → (i2s_run t s (i + 1)).m_buffer_tx (2 * (t i).1 + j) = 0) :=
  ⟨run_finished_history t s n h0 hn,
    fun i h => handler_sets_finishing (i2s_run t s i) (t i).1 (t i).2 h,
    fun i h hne => handler_sets_finished (i2s_run t s i) (t i).1 (t i).2 h hne⟩

/-- The scenario session with capacity 1 reaches Finished at its fourth invocation,
after Finishing was set two invocations or more before the end. -/
theorem C4_two_silence_blocks_witness :
    ∃ k, k + 2 ≤ 4
      ∧ (i2s_run (alternating 1) scenario_armed (k + 1)).m_audio_state = AUDIO_STATE_FINISHING
      ∧ (i2s_run (alternating 1) scenario_armed (k + 2)).m_audio_state = AUDIO_STATE_FINISHED :=
  (C4_two_silence_blocks (alternating 1) scenario_armed 4 rfl (by decide)).1.imp
    (fun _ h => ⟨h.1, h.2.2.2.1, h.2.2.2.2.2.1⟩)

/-! ## The wait loop -/

theorem audio_wait_some : ∀ (fuel : Nat) (t : Nat → Nat × Nat) (s s1 : Engine),
    audio_wait fuel t s = some s1 →
    ∃ n, n < fuel ∧ s1 = i2s_run t s n
      ∧ (i2s_run t s n).m_audio_state = AUDIO_STATE_FINISHED
      ∧ ∀ j, j < n → (i2s_run t s j).m_audio_state ≠ AUDIO_STATE_FINISHED
  | 0, _, _, _, h => by simp [audio_wait] at h
  | fuel + 1, t, s, s1, h => by
    unfold audio_wait at h
    by_cases hf : s.m_audio_state = AUDIO_STATE_FINISHED
    · rw [if_pos hf] at h
      cases h
      exact ⟨0, by omega, rfl, hf, fun j hj => absurd hj (Nat.not_lt_zero j)⟩
    · rw [if_neg hf] at h
      obtain ⟨n, hn, e, hfin, hbefore⟩ := audio_wait_some fuel _ _ s1 h
      refine ⟨n + 1, by omega, ?_, ?_, ?_⟩
      · rw [run_front]; exact e
      · rw [run_front]; exact hfin
      · intro j hj
        cases j with
        | zero => exact hf
        | succ j => rw [run_front]; exact hbefore j (by omega)

theorem audio_wait_returns : ∀ (n : Nat) (t : Nat → Nat × Nat) (s : Engine),
    (i2s_run t s n).m_audio_state = AUDIO_STATE_FINISHED →
    ∃ s1, audio_wait (n + 1) t s = some s1
  | 0, t, s, h => by
    have h0 : s.m_audio_state = AUDIO_STATE_FINISHED := h
    refine ⟨s, ?_⟩
    unfold audio_wait
    rw [if_pos h0]
  | n + 1, t, s, h => by
    unfold audio_wait
    by_cases hf : s.m_audio_state = AUDIO_STATE_FINISHED
    · exact ⟨s, by rw [if_pos hf]⟩
    · rw [if_neg hf]
      rw [run_front] at h
      exact audio_wait_returns n _ _ h

/-- A session of length at most 65534 served with capacity `B >= 1` is in Finished
after `playing_blocks L B + 2` invocations. -/
theorem session_finishes (s0 : Engine) (d : Nat → Fin 256) (L B : Nat) (off : Nat → Nat)
    (hmax : L ≤ 65534) (hB : 1 ≤ B) :
    (i2s_run (fixed_capacity off B) (audio_play_arm s0 d L) (playing_blocks L B)).m_audio_state
        = AUDIO_STATE_PLAYING
    ∧ L ≤ (i2s_run (fixed_capacity off B) (audio_play_arm s0 d L)
        (playing_blocks L B)).m_audio_index
    ∧ (i2s_run (fixed_capacity off B) (audio_play_arm s0 d L)
        (playing_blocks L B + 1)).m_audio_state = AUDIO_STATE_FINISHING
    ∧ (i2s_run (fixed_capacity off B) (audio_play_arm s0 d L)
        (playing_blocks L B + 2)).m_audio_state = AUDIO_STATE_FINISHED := by
  obtain ⟨hK, hlt⟩ := playing_blocks_spec L B hB
  have hreq : ∀ j, j < playing_blocks L B →
      2 * words_requested (fixed_capacity off B) j < (audio_play_arm s0 d L).m_audio_length := by
    intro j hj
    have := hlt j hj
    show 2 * words_requested (fun j => (off j, B)) j < L
    rw [words_requested_const]; omega
  obtain ⟨kst, klen, -, kidx, -⟩ :=
    run_playing (fixed_capacity off B) (audio_play_arm s0 d L) rfl rfl hmax (playing_blocks L B) hreq
  have hge : L ≤ (i2s_run (fixed_capacity off B) (audio_play_arm s0 d L)
      (playing_blocks L B)).m_audio_index := by
    rw [kidx]
    show L ≤ min (2 * words_requested (fun j => (off j, B)) (playing_blocks L B)) (2 * ((L + 1) / 2))
    rw [words_requested_const]; omega
  have h1 : (i2s_run (fixed_capacity off B) (audio_play_arm s0 d L)
      (playing_blocks L B + 1)).m_audio_state = AUDIO_STATE_FINISHING := by
    show (i2s_event_handler (i2s_run (fixed_capacity off B) (audio_play_arm s0 d L)
      (playing_blocks L B)) _ _).m_audio_state = _
    rw [handler_playing_done _ _ _ kst (by rw [klen]; exact hge)]
  refine ⟨kst, hge, h1, ?_⟩
  show (i2s_event_handler (i2s_run (fixed_capacity off B) (audio_play_arm s0 d L)
    (playing_blocks L B + 1)) _ _).m_audio_state = _
  rw [handler_finishing _ _ _ h1]

/-- C8: with the transport serving requests of a fixed capacity `B >= 1` while
`audio_play` waits, for every length greater than zero: whenever `audio_play` returns,
the wait loop exited at the first moment the state was Finished, which the handler
had set after an invocation entered with the cursor at or beyond the length (source
exhausted) that wrote a block of zeros and set Finishing, followed by one that wrote a
block of zeros and set Finished; the returned state is `audio_stop` of that state:
playback state Idle, transport halted, amplifier pin cleared.  For lengths up to 65534
`audio_play` does return. -/
theorem C8_play_returns_after_drain (s : Engine) (d : Nat → Fin 256) (L B : Nat)
    (off : Nat → Nat) (hpos : 0 < L) (hB : 1 ≤ B) :
    (∀ fuel s1, audio_play fuel (fixed_capacity off B) s d L = some s1 →
      ∃ k, k + 2 < fuel
        ∧ (∀ j, j ≤ k →
            (i2s_run (fixed_capacity off B) (audio_play_arm s d L) j).m_audio_state
              = AUDIO_STATE_PLAYING)
        ∧ L ≤ (i2s_run (fixed_capacity off B) (audio_play_arm s d L) k).m_audio_index
        ∧ (i2s_run (fixed_capacity off B) (audio_play_arm s d L) (k + 1)).m_audio_state
            = AUDIO_STATE_FINISHING
        ∧ (∀ j, j < 2 * B →
            (i2s_run (fixed_capacity off B) (audio_play_arm s d L) (k + 1)).m_buffer_tx
              (2 * off k + j) = 0)
        ∧ (i2s_run (fixed_capacity off B) (audio_play_arm s d L) (k + 2)).m_audio_state
            = AUDIO_STATE_FINISHED
        ∧ (∀ j, j < 2 * B →
            (i2s_run (fixed_capacity off B) (audio_play_arm s d L) (k + 2)).m_buffer_tx
              (2 * off (k + 1) + j) = 0)
        ∧ s1 = audio_stop (i2s_run (fixed_capacity off B) (audio_play_arm s d L) (k + 2))
        ∧ s1.m_audio_state = AUDIO_STATE_IDLE
        ∧ s1.i2s_tx = none
        ∧ s1.audio_ctrl_pin = false)
    ∧ (L ≤ 65534 → ∃ fuel s1, audio_play fuel (fixed_capacity off B) s d L = some s1) := by
  constructor
  · intro fuel s1 hret
    unfold audio_play at hret
    rw [if_neg (Nat.pos_iff_ne_zero.mp hpos)] at hret
    cases hw : audio_wait fuel (fixed_capacity off B) (audio_play_arm s d L) with
    | none => rw [hw] at hret; cases hret
    | some s2 =>
      rw [hw] at hret
      have e1 : s1 = audio_stop s2 := by cases hret; rfl
      obtain ⟨n, hn, e2, hfin, hbefore⟩ := audio_wait_some fuel _ _ s2 hw
      obtain ⟨k, hk, hp, hc, hf, hz1, hf2, hz2, -⟩ :=
        run_finished_history (fixed_capacity off B) (audio_play_arm s d L) n rfl hfin
      have hkn : k + 2 = n := by
        by_contra hne
        exact hbefore (k + 2) (by omega) hf2
      rw [run_length] at hc
      refine ⟨k, by omega, hp, hc, hf, hz1, hf2, hz2, ?_, ?_, ?_, ?_⟩
      · rw [e1, e2, hkn]
      · rw [e1]; rfl
      · rw [e1]; rfl
      · rw [e1]; rfl
  · intro hmax
    obtain ⟨-, -, -, hfin⟩ := session_finishes s d L B off hmax hB
    obtain ⟨s2, hs2⟩ := audio_wait_returns _ _ _ hfin
    refine ⟨playing_blocks L B + 2 + 1, audio_stop s2, ?_⟩
    unfold audio_play
    rw [if_neg (Nat.pos_iff_ne_zero.mp hpos), hs2]

/-- The scenario session: `audio_play` on the source `10 20 30 40` with capacity 1
returns within five tests of the state, with the engine idle again. -/
theorem C8_play_returns_after_drain_witness :
    ∃ s1, audio_play 5 (fixed_capacity (fun j => j % 2) 1) (engine_idle 0x5A5A) scenario_source 4
        = some s1
      ∧ s1.m_audio_state = AUDIO_STATE_IDLE ∧ s1.i2s_tx = none ∧ s1.audio_ctrl_pin = false :=
  have hret : audio_play 5 (fixed_capacity (fun j => j % 2) 1) (engine_idle 0x5A5A) scenario_source 4
      = some (audio_stop (i2s_run (fixed_capacity (fun j => j % 2) 1)
          (audio_play_arm (engine_idle 0x5A5A) scenario_source 4) 4)) := rfl
  have h := (C8_play_returns_after_drain (engine_idle 0x5A5A) scenario_source 4 1
    (fun j => j % 2) (by decide) (by decide)).1 5 _ hret
  ⟨_, hret, h.elim (fun _ hk => ⟨hk.2.2.2.2.2.2.2.2.1, hk.2.2.2.2.2.2.2.2.2.1, hk.2.2.2.2.2.2.2.2.2.2⟩)⟩

/-! ## Amplifier line, idle invocations, re-arming -/

/-- C13: for every engine state, `audio_enable` and `audio_disable` are idempotent,
the first leaves the amplifier pin set and the second leaves it cleared, and both leave
the playback state, cursor, length, source view, transfer buffer and transport
unchanged. -/
theorem C13_enable_disable (s : Engine) :
    audio_enable (audio_enable s) = audio_enable s
    ∧ audio_disable (audio_disable s) = audio_disable s
    ∧ audio_enable s = { s with audio_ctrl_pin := true }
    ∧ audio_disable s = { s with audio_ctrl_pin := false }
    ∧ ((audio_enable s).m_audio_state = s.m_audio_state
      ∧ (audio_enable s).m_audio_index = s.m_audio_index
      ∧ (audio_enable s).m_audio_length = s.m_audio_length
      ∧ (audio_enable s).m_audio_data = s.m_audio_data
      ∧ (audio_enable s).m_buffer_tx = s.m_buffer_tx
      ∧ (audio_enable s).i2s_tx = s.i2s_tx)
    ∧ ((audio_disable s).m_audio_state = s.m_audio_state
      ∧ (audio_disable s).m_audio_index = s.m_audio_index
      ∧ (audio_disable s).m_audio_length = s.m_audio_length
      ∧ (audio_disable s).m_audio_data = s.m_audio_data
      ∧ (audio_disable s).m_buffer_tx = s.m_buffer_tx
      ∧ (audio_disable s).i2s_tx = s.i2s_tx) :=
  ⟨rfl, rfl, rfl, rfl, ⟨rfl, rfl, rfl, rfl, rfl, rfl⟩, ⟨rfl, rfl, rfl, rfl, rfl, rfl⟩⟩

/-- C17: when the handler is entered in state Idle or in state Finished, for every
block offset and capacity it returns the engine exactly as it was: block, rest of the
transfer buffer, cursor, length, source view and playback state are unchanged. -/
theorem C17_idle_finished_noop (s : Engine) (p n : Nat)
    (h : s.m_audio_state = AUDIO_STATE_IDLE ∨ s.m_audio_state = AUDIO_STATE_FINISHED) :
    i2s_event_handler s p n = s := by
  rcases h with h | h
  · exact handler_idle s p n h
  · exact handler_finished s p n h

/-- An idle engine and a finished session both ignore a request for 500 words. -/
theorem C17_idle_finished_noop_witness :
    i2s_event_handler (engine_idle 0x5A5A) 0 500 = engine_idle 0x5A5A
    ∧ i2s_event_handler (i2s_run (alternating 1) scenario_armed 4) 0 500
        = i2s_run (alternating 1) scenario_armed 4 :=
  ⟨C17_idle_finished_noop (engine_idle 0x5A5A) 0 500 (Or.inl rfl),
    C17_idle_finished_noop (i2s_run (alternating 1) scenario_armed 4) 0 500 (Or.inr (by decide))⟩

/-- C19: for every length greater than zero, `audio_play` goes on to the arming phase
without looking at the playback state, and the armed engine does not depend on the
prior playback state, source view, length or cursor: it stores the new source view and
length, cursor 0 and state Playing.  So a call made while a session is Playing is not
rejected and replaces the source view, length and cursor of that session. -/
theorem C19_arm_ignores_state (fuel : Nat) (t : Nat → Nat × Nat) (s : Engine)
    (p_audio_data : Nat → Fin 256) (audio_length : Nat) (hlen : 0 < audio_length) :
    audio_play fuel t s p_audio_data audio_length
      = Option.map audio_stop (audio_wait fuel t (audio_play_arm s p_audio_data audio_length))
    ∧ (∀ (st : audio_state_t) (d0 : Nat → Fin 256) (l0 c0 : Nat),
        audio_play_arm
          { s with m_audio_state := st, m_audio_data := d0, m_audio_length := l0,
                   m_audio_index := c0 } p_audio_data audio_length
        = audio_play_arm s p_audio_data audio_length)
    ∧ (audio_play_arm s p_audio_data audio_length).m_audio_data = p_audio_data
    ∧ (audio_play_arm s p_audio_data audio_length).m_audio_length = audio_length
    ∧ (audio_play_arm s p_audio_data audio_length).m_audio_index = 0
    ∧ (audio_play_arm s p_audio_data audio_length).m_audio_state = AUDIO_STATE_PLAYING := by
  refine ⟨?_, fun _ _ _ _ => rfl, rfl, rfl, rfl, rfl⟩
  unfold audio_play
  rw [if_neg (Nat.pos_iff_ne_zero.mp hlen)]
  cases audio_wait fuel t (audio_play_arm s p_audio_data audio_length) <;> rfl

/-- Re-arming the scenario session after its first callback (state Playing, cursor 2,
length 4) with a two-byte source: the cursor is back at 0 and the length is 2. -/
theorem C19_arm_ignores_state_witness :
    (i2s_run (alternating 1) scenario_armed 1).m_audio_state = AUDIO_STATE_PLAYING
    ∧ (i2s_run (alternating 1) scenario_armed 1).m_audio_index = 2
    ∧ (audio_play_arm (i2s_run (alternating 1) scenario_armed 1)
        (bytes_then [0xAB, 0xCD] 0) 2).m_audio_index = 0
    ∧ (audio_play_arm (i2s_run (alternating 1) scenario_armed 1)
        (bytes_then [0xAB, 0xCD] 0) 2).m_audio_length = 2
    ∧ (audio_play_arm (i2s_run (alternating 1) scenario_armed 1)
        (bytes_then [0xAB, 0xCD] 0) 2).m_audio_state = AUDIO_STATE_PLAYING :=
  have h := C19_arm_ignores_state 0 (alternating 1) (i2s_run (alternating 1) scenario_armed 1)
    (bytes_then [0xAB, 0xCD] 0) 2 (by decide)
  ⟨by decide, by decide, h.2.2.2.2.1, h.2.2.2.1, h.2.2.2.2.2⟩

/-! ## Independence from earlier buffer contents -/

theorem fill_slot_agree (p i : Nat) (s1 s2 : Engine)
    (hd : s1.m_audio_data = s2.m_audio_data) (hl : s1.m_audio_length = s2.m_audio_length)
    (hi : s1.m_audio_index = s2.m_audio_index) :
    (fill_slot p i s1).m_audio_index = (fill_slot p i s2).m_audio_index
    ∧ (fill_slot p i s1).m_buffer_tx (2 * p + 2 * i)
        = (fill_slot p i s2).m_buffer_tx (2 * p + 2 * i)
    ∧ (fill_slot p i s1).m_buffer_tx (2 * p + (2 * i + 1))
        = (fill_slot p i s2).m_buffer_tx (2 * p + (2 * i + 1)) := by
  unfold fill_slot
  rw [hi, hl]
  split
  · simp [emit_sample, store16, hd, hi]
  · simp [store16]

theorem fill_loop_agree (p i : Nat) (s1 s2 : Engine)
    (hd : s1.m_audio_data = s2.m_audio_data) (hl : s1.m_audio_length = s2.m_audio_length)
    (hi : s1.m_audio_index = s2.m_audio_index) : ∀ n : Nat,
    (fill_loop p n i s1).m_audio_index = (fill_loop p n i s2).m_audio_index
    ∧ ∀ j, j < 2 * n →
        (fill_loop p n i s1).m_buffer_tx (2 * p + 2 * i + j)
          = (fill_loop p n i s2).m_buffer_tx (2 * p + 2 * i + j)
  | 0 => ⟨hi, fun j hj => absurd hj (Nat.not_lt_zero j)⟩
  | n + 1 => by
    obtain ⟨ii, ib⟩ := fill_loop_agree p i s1 s2 hd hl hi n
    obtain ⟨ki, k0, k1⟩ := fill_slot_agree p (i + n) (fill_loop p n i s1) (fill_loop p n i s2)
      (by rw [fill_loop_data, fill_loop_data, hd])
      (by rw [fill_loop_length, fill_loop_length, hl]) ii
    rw [fill_loop_succ_last, fill_loop_succ_last]
    refine ⟨ki, ?_⟩
    intro j hj
    by_cases hj0 : j = 2 * n
    · subst hj0
      have e : 2 * p + 2 * i + 2 * n = 2 * p + 2 * (i + n) := by omega
      rw [e, k0]
    · by_cases hj1 : j = 2 * n + 1
      · subst hj1
        have e : 2 * p + 2 * i + (2 * n + 1) = 2 * p + (2 * (i + n) + 1) := by omega
        rw [e, k1]
      · rw [fill_slot_buffer_outside p (i + n) _ _ (by omega) (by omega),
          fill_slot_buffer_outside p (i + n) _ _ (by omega) (by omega)]
        exact ib j (by omega)

/-- Two invocations that agree on state (Playing or Finishing), source view, length and
cursor write the same block and leave the same cursor and state. -/
theorem handler_agree (s1 s2 : Engine) (p n : Nat)
    (hst : s1.m_audio_state = AUDIO_STATE_PLAYING ∨ s1.m_audio_state = AUDIO_STATE_FINISHING)
    (hs : s2.m_audio_state = s1.m_audio_state)
    (hd : s1.m_audio_data = s2.m_audio_data) (hl : s1.m_audio_length = s2.m_audio_length)
    (hi : s1.m_audio_index = s2.m_audio_index) :
    (i2s_event_handler s1 p n).m_audio_state = (i2s_event_handler s2 p n).m_audio_state
    ∧ (i2s_event_handler s1 p n).m_audio_index = (i2s_event_handler s2 p n).m_audio_index
    ∧ ∀ j, j < 2 * n →
        (i2s_event_handler s1 p n).m_buffer_tx (2 * p + j)
          = (i2s_event_handler s2 p n).m_buffer_tx (2 * p + j) := by
  rcases hst with h1 | h1
  · have h2 : s2.m_audio_state = AUDIO_STATE_PLAYING := by rw [hs, h1]
    by_cases hc : s1.m_audio_index < s1.m_audio_length
    · have hc2 : s2.m_audio_index < s2.m_audio_length := by rw [← hi, ← hl]; exact hc
      rw [handler_playing_fill s1 p n h1 hc, handler_playing_fill s2 p n h2 hc2]
      obtain ⟨ai, ab⟩ := fill_loop_agree p 0 s1 s2 hd hl hi n
      refine ⟨by rw [fill_loop_state, fill_loop_state, h1, h2], ai, ?_⟩
      intro j hj
      have := ab j hj
      rw [Nat.mul_zero, Nat.add_zero] at this
      exact this
    · have hc1 := Nat.not_lt.mp hc
      have hc2 : s2.m_audio_length ≤ s2.m_audio_index := by rw [← hi, ← hl]; exact hc1
      rw [handler_playing_done s1 p n h1 hc1, handler_playing_done s2 p n h2 hc2]
      refine ⟨rfl, hi, ?_⟩
      intro j hj
      show memset0 _ p n (2 * p + j) = memset0 _ p n (2 * p + j)
      rw [memset0_block _ _ _ _ hj, memset0_block _ _ _ _ hj]
  · have h2 : s2.m_audio_state = AUDIO_STATE_FINISHING := by rw [hs, h1]
    rw [handler_finishing s1 p n h1, handler_finishing s2 p n h2]
    refine ⟨rfl, hi, ?_⟩
    intro j hj
    show memset0 _ p n (2 * p + j) = memset0 _ p n (2 * p + j)
    rw [memset0_block _ _ _ _ hj, memset0_block _ _ _ _ hj]

/-- C18: for every invocation entered in state Playing or Finishing with capacity `n`,
the result does not depend on what the transfer buffer held before: two engines that
agree on playback state, source view, length and cursor, whatever their transfer
buffers hold, end with the same half-words in all `n` words of the block, the same
cursor and the same state; in particular replacing the buffer contents of one engine
by anything else changes nothing in the resulting block. -/
theorem C18_no_stale_output (s1 s2 : Engine) (p n : Nat)
    (hst : s1.m_audio_state = AUDIO_STATE_PLAYING ∨ s1.m_audio_state = AUDIO_STATE_FINISHING)
    (hs : s2.m_audio_state = s1.m_audio_state)
    (hd : s1.m_audio_data = s2.m_audio_data) (hl : s1.m_audio_length = s2.m_audio_length)
    (hi : s1.m_audio_index = s2.m_audio_index) :
    block (i2s_event_handler s1 p n) p n = block (i2s_event_handler s2 p n) p n
    ∧ (i2s_event_handler s1 p n).m_audio_index = (i2s_event_handler s2 p n).m_audio_index
    ∧ (i2s_event_handler s1 p n).m_audio_state = (i2s_event_handler s2 p n).m_audio_state
    ∧ ∀ stale : Nat → Nat,
        block (i2s_event_handler { s1 with m_buffer_tx := stale } p n) p n
          = block (i2s_event_handler s1 p n) p n := by
  have key : ∀ a b : Engine,
      (a.m_audio_state = AUDIO_STATE_PLAYING ∨ a.m_audio_state = AUDIO_STATE_FINISHING) →
      b.m_audio_state = a.m_audio_state → a.m_audio_data = b.m_audio_data →
      a.m_audio_length = b.m_audio_length → a.m_audio_index = b.m_audio_index →
      block (i2s_event_handler a p n) p n = block (i2s_event_handler b p n) p n := by
    intro a b h1 h2 h3 h4 h5
    obtain ⟨-, -, hb⟩ := handler_agree a b p n h1 h2 h3 h4 h5
    unfold block
    apply List.map_congr_left
    intro j hj
    exact hb j (List.mem_range.mp hj)
  obtain ⟨hst2, hidx, -⟩ := handler_agree s1 s2 p n hst hs hd hl hi
  exact ⟨key s1 s2 hst hs hd hl hi, hidx, hst2,
    fun stale => key { s1 with m_buffer_tx := stale } s1 hst rfl rfl rfl rfl⟩

/-- The scenario source armed over two different stale buffers: a request for three
words at cursor 0 yields the same block, two words of samples and one of zeros. -/
theorem C18_no_stale_output_witness :
    block (i2s_event_handler scenario_armed 0 3) 0 3
      = block (i2s_event_handler (audio_play_arm (engine_idle 0x1234) scenario_source 4) 0 3) 0 3
    ∧ block (i2s_event_handler scenario_armed 0 3) 0 3
      = [0x1000, 0x2000, 0x3000, 0x4000, 0, 0] :=
  ⟨(C18_no_stale_output scenario_armed (audio_play_arm (engine_idle 0x1234) scenario_source 4) 0 3
      (Or.inl rfl) rfl rfl rfl rfl).1, by decide⟩

/-! ## Both halves silent at completion -/

theorem run_finished_const (t : Nat → Nat × Nat) (s : Engine) (j : Nat)
    (h : (i2s_run t s j).m_audio_state = AUDIO_STATE_FINISHED) : ∀ k : Nat,
    i2s_run t s (j + k) = i2s_run t s j
  | 0 => rfl
  | k + 1 => by
    have ih := run_finished_const t s j h k
    show i2s_event_handler (i2s_run t s (j + k)) _ _ = _
    rw [ih, handler_finished _ _ _ h]

/-- With requests alternating between the two halves, a run that starts in Playing and
is in Finished has zeros in all `2 * B` words of the buffer. -/
theorem alternating_finished_silent (s : Engine) (B n : Nat)
    (h0 : s.m_audio_state = AUDIO_STATE_PLAYING)
    (hn : (i2s_run (alternating B) s n).m_audio_state = AUDIO_STATE_FINISHED) :
    ∀ h, h < 4 * B → (i2s_run (alternating B) s n).m_buffer_tx h = 0 := by
  obtain ⟨k, hk, -, -, hf, hz1, hf2, hz2, -⟩ := run_finished_history (alternating B) s n h0 hn
  have hz1b : ∀ j, j < 2 * B →
      (i2s_run (alternating B) s (k + 1)).m_buffer_tx (2 * ((k % 2) * B) + j) = 0 := hz1
  have hz2b : ∀ j, j < 2 * B →
      (i2s_run (alternating B) s (k + 2)).m_buffer_tx (2 * (((k + 1) % 2) * B) + j) = 0 := hz2
  have e2 : i2s_run (alternating B) s (k + 2)
      = i2s_event_handler (i2s_run (alternating B) s (k + 1)) (((k + 1) % 2) * B) B := rfl
  have hkeep : ∀ h, (i2s_run (alternating B) s (k + 1)).m_buffer_tx h = 0 →
      (i2s_run (alternating B) s (k + 2)).m_buffer_tx h = 0 := by
    intro h hh
    rw [e2, handler_finishing _ _ _ hf]
    show memset0 _ _ _ h = 0
    unfold memset0
    split
    · rfl
    · exact hh
  have en : i2s_run (alternating B) s n = i2s_run (alternating B) s (k + 2) := by
    have := run_finished_const (alternating B) s (k + 2) hf2 (n - (k + 2))
    have e : k + 2 + (n - (k + 2)) = n := by omega
    rw [e] at this
    exact this
  intro h hh
  rw [en]
  rcases Nat.mod_two_eq_zero_or_one k with hk0 | hk1
  · have hk1 : (k + 1) % 2 = 1 := by omega
    rw [hk0] at hz1b
    rw [hk1] at hz2b
    by_cases hlow : h < 2 * B
    · apply hkeep
      have := hz1b h hlow
      rw [Nat.zero_mul, Nat.mul_zero, Nat.zero_add] at this
      exact this
    · have := hz2b (h - 2 * B) (by omega)
      rw [Nat.one_mul] at this
      have e : 2 * B + (h - 2 * B) = h := by omega
      rw [e] at this
      exact this
  · have hk0 : (k + 1) % 2 = 0 := by omega
    rw [hk1] at hz1b
    rw [hk0] at hz2b
    by_cases hlow : h < 2 * B
    · have := hz2b h hlow
      rw [Nat.zero_mul, Nat.mul_zero, Nat.zero_add] at this
      exact this
    · apply hkeep
      have := hz1b (h - 2 * B) (by omega)
      rw [Nat.one_mul] at this
      have e : 2 * B + (h - 2 * B) = h := by omega
      rw [e] at this
      exact this

/-- C15: when the transport hands consecutive invocations alternating halves of the
transfer buffer, each of the half-buffer capacity `B`, then in every session armed by
`audio_play`, whenever the state is Finished (in particular at the moment it first
becomes Finished) every half-word of both halves is zero; for the engine's buffer of
1000 words that is `B = 500` and half-words 0 to 1999.  Sessions of length up to 65534
do reach Finished, after `playing_blocks L B + 2` invocations. -/
theorem C15_both_halves_silent (s : Engine) (d : Nat → Fin 256) (L B n : Nat)
    (hn : (i2s_run (alternating B) (audio_play_arm s d L) n).m_audio_state
      = AUDIO_STATE_FINISHED) :
    (∀ h, h < 4 * B → (i2s_run (alternating B) (audio_play_arm s d L) n).m_buffer_tx h = 0)
    ∧ (B = I2S_BUFFER_SIZE / 2 →
        ∀ h, h < 2 * I2S_BUFFER_SIZE →
          (i2s_run (alternating B) (audio_play_arm s d L) n).m_buffer_tx h = 0)
    ∧ (L ≤ 65534 → 1 ≤ B →
        (i2s_run (alternating B) (audio_play_arm s d L) (playing_blocks L B + 2)).m_audio_state
          = AUDIO_STATE_FINISHED) := by
  have hz := alternating_finished_silent (audio_play_arm s d L) B n rfl hn
  refine ⟨hz, ?_, ?_⟩
  · intro hB h hh
    apply hz
    rw [hB]
    unfold I2S_BUFFER_SIZE at hh ⊢
    omega
  · intro hmax hB
    exact (session_finishes s d L B (fun j => (j % 2) * B) hmax hB).2.2.2

/-- The scenario session over a stale buffer, with one-word halves: at Finished the
four half-words of the buffer are zero. -/
theorem C15_both_halves_silent_witness :
    block (i2s_run (alternating 1) (audio_play_arm (engine_idle 0x5A5A) scenario_source 4) 2) 0 2
      = [0x1000, 0x2000, 0x3000, 0x4000]
    ∧ (i2s_run (alternating 1) (audio_play_arm (engine_idle 0x5A5A) scenario_source 4) 4).m_buffer_tx 0 = 0
    ∧ (i2s_run (alternating 1) (audio_play_arm (engine_idle 0x5A5A) scenario_source 4) 4).m_buffer_tx 1 = 0
    ∧ (i2s_run (alternating 1) (audio_play_arm (engine_idle 0x5A5A) scenario_source 4) 4).m_buffer_tx 2 = 0
    ∧ (i2s_run (alternating 1) (audio_play_arm (engine_idle 0x5A5A) scenario_source 4) 4).m_buffer_tx 3 = 0 :=
  have h := (C15_both_halves_silent (engine_idle 0x5A5A) scenario_source 4 1 4 (by decide)).1
  ⟨by decide, h 0 (by decide), h 1 (by decide), h 2 (by decide), h 3 (by decide)⟩

/-! ## The cursor at and beyond the length -/

/-- While fewer than `length` bytes have been requested in total, a session of length at
most 65535 is in Playing with the cursor at twice the number of words requested. -/
theorem run_playing_exact (t : Nat → Nat × Nat) (s : Engine)
    (hst : s.m_audio_state = AUDIO_STATE_PLAYING) (hidx : s.m_audio_index = 0)
    (hlen : s.m_audio_length ≤ 65535) : ∀ k : Nat,
    2 * words_requested t k < s.m_audio_length →
    (i2s_run t s k).m_audio_state = AUDIO_STATE_PLAYING
    ∧ (i2s_run t s k).m_audio_length = s.m_audio_length
    ∧ (i2s_run t s k).m_audio_data = s.m_audio_data
    ∧ (i2s_run t s k).m_audio_index = 2 * words_requested t k
  | 0, _ => ⟨hst, rfl, rfl, by show s.m_audio_index = _; rw [hidx]; rfl⟩
  | k + 1, h => by
    have hw : words_requested t (k + 1) = words_requested t k + (t k).2 := rfl
    obtain ⟨ist, ilen, idat, iidx⟩ := run_playing_exact t s hst hidx hlen k (by omega)
    have hlt : (i2s_run t s k).m_audio_index < (i2s_run t s k).m_audio_length := by
      rw [iidx, ilen]; omega
    have hslots : slots_from_source (i2s_run t s k).m_audio_length
        (i2s_run t s k).m_audio_index (t k).2 = (t k).2 := by
      rw [iidx, ilen]; unfold slots_from_source; omega
    obtain ⟨bst, bidx, -⟩ := handler_playing_block (i2s_run t s k) (t k).1 (t k).2 ist hlt
      (by rw [hslots, iidx]; omega)
    refine ⟨bst, by rw [run_length], by rw [run_data], ?_⟩
    show (i2s_event_handler (i2s_run t s k) (t k).1 (t k).2).m_audio_index = _
    rw [bidx, hslots, iidx, hw]; omega

/-- A block entered in Playing with length 65535 whose slot `m` is reached with the
cursor at 65534: that slot steps the 16-bit cursor to 0, and the `n - m - 1` slots after
it are filled from the start of the source view again. -/
theorem handler_wraps (s : Engine) (p n m : Nat)
    (hst : s.m_audio_state = AUDIO_STATE_PLAYING) (hL : s.m_audio_length = 65535)
    (hc : s.m_audio_index + 2 * m = 65534) (hmn : m + 1 < n) (hn : n ≤ 32768) :
    (i2s_event_handler s p n).m_audio_index = 2 * (n - m - 1)
    ∧ (i2s_event_handler s p n).m_buffer_tx (2 * p + 2 * (m + 1)) = (s.m_audio_data 0).val * 256
    ∧ (i2s_event_handler s p n).m_buffer_tx (2 * p + 2 * (m + 1) + 1)
        = (s.m_audio_data 1).val * 256 := by
  rw [handler_playing_fill s p n hst (by omega)]
  have en : n = m + (1 + (n - m - 1)) := by omega
  rw [en, fill_loop_split p m _ 0 s, fill_loop_split p 1 _ (0 + m)]
  obtain ⟨i1, -, -⟩ := fill_loop_sampled p 0 s m (by omega) (by omega)
  have l1 := fill_loop_length p m 0 s
  have d1 := fill_loop_data p m 0 s
  have e1 : fill_loop p 1 (0 + m) (fill_loop p m 0 s) = fill_slot p (0 + m) (fill_loop p m 0 s) := rfl
  rw [e1]
  obtain ⟨i2, -, -, -⟩ := fill_slot_sample p (0 + m) (fill_loop p m 0 s)
    (by rw [i1, l1]; omega) (by rw [i1]; omega)
  have i2z : (fill_slot p (0 + m) (fill_loop p m 0 s)).m_audio_index = 0 := by
    rw [i2, i1]
    have : s.m_audio_index + 2 * m + 2 = 65536 := by omega
    rw [this]
  have l2 : (fill_slot p (0 + m) (fill_loop p m 0 s)).m_audio_length = 65535 := by
    rw [fill_slot_length, l1, hL]
  have d2 : (fill_slot p (0 + m) (fill_loop p m 0 s)).m_audio_data = s.m_audio_data := by
    rw [fill_slot_data, d1]
  obtain ⟨i3, -, b3⟩ := fill_loop_sampled p (0 + m + 1) (fill_slot p (0 + m) (fill_loop p m 0 s))
    (n - m - 1) (by rw [i2z, l2]; omega) (by rw [i2z]; omega)
  have em : m + (1 + (n - m - 1)) - m - 1 = n - m - 1 := by omega
  refine ⟨?_, ?_, ?_⟩
  · rw [i3, i2z, em]; omega
  · have := b3 0 (by omega)
    rw [i2z, d2] at this
    have e : 2 * p + 2 * (0 + m + 1) + 0 = 2 * p + 2 * (m + 1) := by omega
    rw [e] at this
    exact this
  · have := b3 1 (by omega)
    rw [i2z, d2] at this
    have e : 2 * p + 2 * (0 + m + 1) + 1 = 2 * p + 2 * (m + 1) + 1 := by omega
    rw [e] at this
    exact this

theorem fill_slot_even (p i : Nat) (s : Engine)
    (he : s.m_audio_index % 2 = 0) (hb : s.m_audio_index < 65536) :
    (fill_slot p i s).m_audio_index % 2 = 0 ∧ (fill_slot p i s).m_audio_index < 65536 := by
  unfold fill_slot
  split
  · simp only [emit_sample]; omega
  · exact ⟨he, hb⟩

theorem fill_loop_even (p : Nat) : ∀ (n i : Nat) (s : Engine),
    s.m_audio_index % 2 = 0 → s.m_audio_index < 65536 →
    (fill_loop p n i s).m_audio_index % 2 = 0 ∧ (fill_loop p n i s).m_audio_index < 65536
  | 0, _, _, he, hb => ⟨he, hb⟩
  | n + 1, i, s, he, hb => by
    obtain ⟨he1, hb1⟩ := fill_slot_even p i s he hb
    exact fill_loop_even p n (i + 1) (fill_slot p i s) he1 hb1

/-- A session of length 65535 that starts in Playing with an even cursor never leaves
Playing: the cursor stays even and below 65535. -/
theorem run_never_finishes (t : Nat → Nat × Nat) (s : Engine)
    (hst : s.m_audio_state = AUDIO_STATE_PLAYING) (hL : s.m_audio_length = 65535)
    (he : s.m_audio_index % 2 = 0) (hb : s.m_audio_index < 65536) : ∀ k : Nat,
    (i2s_run t s k).m_audio_state = AUDIO_STATE_PLAYING
    ∧ (i2s_run t s k).m_audio_index % 2 = 0
    ∧ (i2s_run t s k).m_audio_index < 65536
  | 0 => ⟨hst, he, hb⟩
  | k + 1 => by
    obtain ⟨ist, ie, ib⟩ := run_never_finishes t s hst hL he hb k
    have il : (i2s_run t s k).m_audio_length = 65535 := by rw [run_length, hL]
    show (i2s_event_handler (i2s_run t s k) (t k).1 (t k).2).m_audio_state = _
      ∧ (i2s_event_handler (i2s_run t s k) (t k).1 (t k).2).m_audio_index % 2 = 0
      ∧ (i2s_event_handler (i2s_run t s k) (t k).1 (t k).2).m_audio_index < 65536
    rw [handler_playing_fill _ _ _ ist (by rw [il]; omega)]
    obtain ⟨h1, h2⟩ := fill_loop_even (t k).1 (t k).2 0 (i2s_run t s k) ie ib
    exact ⟨by rw [fill_loop_state, ist], h1, h2⟩

theorem audio_wait_never (t : Nat → Nat × Nat) (s : Engine)
    (h : ∀ k, (i2s_run t s k).m_audio_state ≠ AUDIO_STATE_FINISHED) (fuel : Nat) :
    audio_wait fuel t s = none := by
  cases hw : audio_wait fuel t s with
  | none => rfl
  | some s1 =>
    obtain ⟨n, -, -, hfin, -⟩ := audio_wait_some fuel t s s1 hw
    exact absurd hfin (h n)

/-- One invocation on a session of length at most 65534 whose cursor is even and at most
the length rounded up to even: the cursor stays so, and every offset read is below the
length rounded up to even. -/
theorem handler_cursor_bound (s : Engine) (p n : Nat) (hL : s.m_audio_length ≤ 65534)
    (he : s.m_audio_index % 2 = 0) (hb : s.m_audio_index ≤ 2 * ((s.m_audio_length + 1) / 2)) :
    (i2s_event_handler s p n).m_audio_index % 2 = 0
    ∧ (i2s_event_handler s p n).m_audio_index ≤ 2 * ((s.m_audio_length + 1) / 2)
    ∧ ∃ extra : List (Nat × Nat), (i2s_event_handler s p n).sampled = s.sampled ++ extra
        ∧ ∀ e ∈ extra, e.1 < 2 * ((s.m_audio_length + 1) / 2) := by
  cases h : s.m_audio_state
  · rw [handler_idle s p n h]; exact ⟨he, hb, [], by simp, by simp⟩
  · by_cases hc : s.m_audio_index < s.m_audio_length
    · have hm : slots_from_source s.m_audio_length s.m_audio_index n
          ≤ (s.m_audio_length - s.m_audio_index + 1) / 2 := Nat.min_le_right _ _
      obtain ⟨-, bi, bs, -⟩ := handler_playing_block s p n h hc (by omega)
      refine ⟨by rw [bi]; omega, by rw [bi]; omega, _, bs, ?_⟩
      intro e hmem
      unfold samples_from at hmem
      obtain ⟨j, hj, rfl⟩ := List.mem_map.mp hmem
      have := List.mem_range.mp hj
      show s.m_audio_index + j < _
      omega
    · rw [handler_playing_done s p n h (Nat.not_lt.mp hc)]
      exact ⟨he, hb, [], by simp, by simp⟩
  · rw [handler_finishing s p n h]; exact ⟨he, hb, [], by simp, by simp⟩
  · rw [handler_finished s p n h]; exact ⟨he, hb, [], by simp, by simp⟩

/-- In a session of length `L <= 65534` armed by `audio_play`, whatever the capacities
requested, the cursor is always even and at most `L` rounded up to even, and every
offset read from the source view is below `L` rounded up to even; for even `L` that is
cursor at most `L` and every read below `L`. -/
theorem session_cursor_bound (t : Nat → Nat × Nat) (s : Engine) (d : Nat → Fin 256) (L : Nat)
    (hL : L ≤ 65534) : ∀ k : Nat,
    (i2s_run t (audio_play_arm s d L) k).m_audio_index % 2 = 0
    ∧ (i2s_run t (audio_play_arm s d L) k).m_audio_index ≤ 2 * ((L + 1) / 2)
    ∧ ∃ extra : List (Nat × Nat),
        (i2s_run t (audio_play_arm s d L) k).sampled = s.sampled ++ extra
        ∧ ∀ e ∈ extra, e.1 < 2 * ((L + 1) / 2)
  | 0 => ⟨rfl, Nat.zero_le _, [], by simp [i2s_run, audio_play_arm, audio_play_store,
      nrf_drv_i2s_start, audio_enable, nrf_drv_gpiote_out_set], by simp⟩
  | k + 1 => by
    obtain ⟨ie, ib, x, hx, hxe⟩ := session_cursor_bound t s d L hL k
    have il : (i2s_run t (audio_play_arm s d L) k).m_audio_length = L := run_length _ _ k
    obtain ⟨he, hb, y, hy, hye⟩ := handler_cursor_bound (i2s_run t (audio_play_arm s d L) k)
      (t k).1 (t k).2 (by rw [il]; exact hL) ie (by rw [il]; exact ib)
    rw [il] at hb hye
    refine ⟨he, hb, x ++ y, ?_, ?_⟩
    · show (i2s_event_handler (i2s_run t (audio_play_arm s d L) k) (t k).1 (t k).2).sampled = _
      rw [hy, hx, List.append_assoc]
    · intro e hmem
      rcases List.mem_append.mp hmem with h | h
      · exact hxe e h
      · exact hye e h

/-- In a session of odd length `L <= 65534` served with capacity `B >= 1`, when the last
Playing block has been filled the cursor is `L + 1` and the byte at offset `L`, the
first one after the source, has been read and emitted. -/
theorem odd_length_overrun (s : Engine) (d : Nat → Fin 256) (L B : Nat) (off : Nat → Nat)
    (hodd : L % 2 = 1) (hmax : L ≤ 65534) (hB : 1 ≤ B) :
    (i2s_run (fixed_capacity off B) (audio_play_arm s d L) (playing_blocks L B)).m_audio_index
      = L + 1
    ∧ (L, (d L).val * 256)
        ∈ (i2s_run (fixed_capacity off B) (audio_play_arm s d L) (playing_blocks L B)).sampled := by
  obtain ⟨hK, hlt⟩ := playing_blocks_spec L B hB
  have hreq : ∀ j, j < playing_blocks L B →
      2 * words_requested (fixed_capacity off B) j < (audio_play_arm s d L).m_audio_length := by
    intro j hj
    have := hlt j hj
    show 2 * words_requested (fun j => (off j, B)) j < L
    rw [words_requested_const]; omega
  obtain ⟨-, -, -, kidx, ksam⟩ :=
    run_playing (fixed_capacity off B) (audio_play_arm s d L) rfl rfl hmax (playing_blocks L B) hreq
  have ecur : min (2 * words_requested (fixed_capacity off B) (playing_blocks L B))
      (2 * (((audio_play_arm s d L).m_audio_length + 1) / 2)) = L + 1 := by
    show min (2 * words_requested (fun j => (off j, B)) (playing_blocks L B)) (2 * ((L + 1) / 2))
      = L + 1
    rw [words_requested_const]; omega
  rw [ecur] at kidx ksam
  refine ⟨kidx, ?_⟩
  rw [ksam]
  apply List.mem_append_right
  show (L, (d L).val * 256) ∈ samples_from d 0 (L + 1)
  unfold samples_from
  exact List.mem_map.mpr ⟨L, List.mem_range.mpr (by omega), by simp⟩

/-- A session of length `L <= 65534` served with capacity `B >= 1` is in Finished after
`j` invocations exactly when `j >= playing_blocks L B + 2`. -/
theorem session_length (s : Engine) (d : Nat → Fin 256) (L B : Nat) (off : Nat → Nat)
    (hmax : L ≤ 65534) (hB : 1 ≤ B) (j : Nat) :
    (i2s_run (fixed_capacity off B) (audio_play_arm s d L) j).m_audio_state = AUDIO_STATE_FINISHED
      ↔ playing_blocks L B + 2 ≤ j := by
  obtain ⟨-, -, h1, h2⟩ := session_finishes s d L B off hmax hB
  constructor
  · intro hj
    by_contra hlt
    have hr := (i2s_run_rank (fixed_capacity off B) (audio_play_arm s d L) j
      (playing_blocks L B + 1 - j)).1
    have e : j + (playing_blocks L B + 1 - j) = playing_blocks L B + 1 := by omega
    rw [e, h1, hj] at hr
    simp [audio_state_t.rank] at hr
  · intro hj
    have := run_finished_stays (fixed_capacity off B) (audio_play_arm s d L)
      (playing_blocks L B + 2) h2 (j - (playing_blocks L B + 2))
    have e : playing_blocks L B + 2 + (j - (playing_blocks L B + 2)) = j := by omega
    rw [e] at this
    exact this

/-! ## Odd lengths and the longest length, evaluated -/

/-- C11, evaluated on the code: `audio_play(p, 3)` served with capacity 1.  After the
second callback the cursor is 4 while the length is 3, so `cursor <= length` does not
hold in a reachable state.  With the 500-word halves of the engine's own buffer the
cursor is 4 after the first callback. -/
theorem C11_cursor_passes_odd_length :
    (i2s_run (alternating 1) odd_armed 2).m_audio_index = 4
    ∧ (i2s_run (alternating 1) odd_armed 2).m_audio_length = 3
    ∧ ¬ ((i2s_run (alternating 1) odd_armed 2).m_audio_index
          ≤ (i2s_run (alternating 1) odd_armed 2).m_audio_length)
    ∧ (i2s_run (alternating 500) odd_armed 1).m_audio_index = 4 := by
  refine ⟨by decide, by decide, by decide, ?_⟩
  exact (odd_length_overrun (engine_idle 0x5A5A) (bytes_then odd_source 0xFF) 3 500
    (fun j => (j % 2) * 500) (by decide) (by decide) (by decide)).1

/-- C12, evaluated on the code: `audio_play(p, 3)` on a source of exactly three bytes,
served with capacity 1.  The handler reads offsets 0, 1, 2 and 3; offset 3 is not below
the length, the source has no byte there, and the byte `FF` found after the source is
emitted as `FF00`. -/
theorem C12_read_at_length :
    (i2s_run (alternating 1) odd_armed 2).sampled
      = [(0, 0x1000), (1, 0x2000), (2, 0x3000), (3, 0xFF00)]
    ∧ (∃ e ∈ (i2s_run (alternating 1) odd_armed 2).sampled, ¬ e.1 < odd_source.length)
    ∧ odd_source[3]? = none
    ∧ block (i2s_run (alternating 1) odd_armed 2) 1 1 = [0x3000, 0xFF00] := by
  refine ⟨by decide, ⟨(3, 0xFF00), by decide, by decide⟩, by decide, by decide⟩

/-- C14, evaluated on the code: `audio_play(p, 65535)` served with the 500-word halves
of the engine's buffer.  Callback 66 is entered in Playing with cursor 65000, below the
length 65535.  Slot 268 is reached after `65000 + 2 * 268 = 65536 >= 65535` bytes, yet
its first half-word is `1000`, the first source byte again, not 0; and on exit the
cursor is 464, not `65000 + 2 * min(500, 268) = 65536`. -/
theorem C14_block_wraps_at_65535 :
    (i2s_run (alternating 500) longest_armed 65).m_audio_state = AUDIO_STATE_PLAYING
    ∧ (i2s_run (alternating 500) longest_armed 65).m_audio_index = 65000
    ∧ (i2s_run (alternating 500) longest_armed 65).m_audio_length = 65535
    ∧ (i2s_run (alternating 500) longest_armed 66).m_buffer_tx (2 * 500 + 2 * 268) = 0x1000
    ∧ (i2s_run (alternating 500) longest_armed 66).m_buffer_tx (2 * 500 + 2 * 268 + 1) = 0x2000
    ∧ (i2s_run (alternating 500) longest_armed 66).m_audio_index = 464
    ∧ 65000 + 2 * min 500 ((65535 - 65000 + 1) / 2) = 65536 := by
  have hw : words_requested (alternating 500) 65 = 500 * 65 :=
    words_requested_const (fun j => (j % 2) * 500) 500 65
  obtain ⟨hst, hlen, hdat, hidx⟩ :=
    run_playing_exact (alternating 500) longest_armed rfl rfl (by decide) 65
      (by rw [hw]; decide)
  rw [hw] at hidx
  have hL : (i2s_run (alternating 500) longest_armed 65).m_audio_length = 65535 := hlen
  obtain ⟨wi, w0, w1⟩ := handler_wraps (i2s_run (alternating 500) longest_armed 65)
    500 500 267 hst hL (by rw [hidx]) (by decide) (by decide)
  rw [hdat] at w0 w1
  have e66 : i2s_run (alternating 500) longest_armed 66
      = i2s_event_handler (i2s_run (alternating 500) longest_armed 65) 500 500 := rfl
  have v0 : (longest_armed.m_audio_data 0).val * 256 = 0x1000 := by decide
  have v1 : (longest_armed.m_audio_data 1).val * 256 = 0x2000 := by decide
  have a0 : 2 * 500 + 2 * (267 + 1) = 2 * 500 + 2 * 268 := rfl
  have ai : 2 * (500 - 267 - 1) = 464 := rfl
  rw [v0, a0] at w0
  rw [v1, a0] at w1
  rw [ai] at wi
  rw [e66]
  exact ⟨hst, hidx, hL, w0, w1, wi, by decide⟩

/-- C16, evaluated on the code: `audio_play(p, 65535)` served with the 500-word halves
of the engine's buffer.  The formula gives `ceil(ceil(65535/2)/500) + 2 = 68`
invocations, but the state is Playing after 68 invocations and after any number of
invocations, so Finished is never reached and `audio_play` never returns. -/
theorem C16_longest_never_finishes :
    playing_blocks 65535 500 + 2 = 68
    ∧ (i2s_run (alternating 500) longest_armed 68).m_audio_state = AUDIO_STATE_PLAYING
    ∧ (∀ k, (i2s_run (alternating 500) longest_armed k).m_audio_state = AUDIO_STATE_PLAYING)
    ∧ (∀ k, (i2s_run (alternating 500) longest_armed k).m_audio_state ≠ AUDIO_STATE_FINISHED)
    ∧ ∀ fuel, audio_play fuel (alternating 500) (engine_idle 0x5A5A) scenario_source 65535
        = none := by
  have hall : ∀ k, (i2s_run (alternating 500) longest_armed k).m_audio_state
      = AUDIO_STATE_PLAYING :=
    fun k => (run_never_finishes (alternating 500) longest_armed rfl rfl rfl (by decide) k).1
  have hne : ∀ k, (i2s_run (alternating 500) longest_armed k).m_audio_state
      ≠ AUDIO_STATE_FINISHED := by
    intro k h
    rw [hall k] at h
    cases h
  refine ⟨by decide, hall 68, hall, hne, ?_⟩
  intro fuel
  unfold audio_play
  rw [if_neg (by decide)]
  have hw : audio_wait fuel (alternating 500) (audio_play_arm (engine_idle 0x5A5A) scenario_source 65535)
      = none := audio_wait_never (alternating 500) longest_armed hne fuel
  rw [hw]

end Audio
